import Mathlib

/-!
# Verification of the WolfpackTrend portfolio / execution core

This file gives a shallow embedding in Lean 4 of the deterministic core of the
WolfpackTrend trading engine (files `core/math_utils.py`, `core/formatting.py`,
`risk/portfolio.py`, `execution/execution.py`, `execution/cancellation.py`) and
proves or refutes the frozen behavioural claims about it.

Modelling conventions:
* Python floats are modelled by exact arithmetic (`ℝ` for the weight pipeline,
  `ℚ` or `Char` lists for the fully computable parts); the claims themselves
  state their bounds "up to ε; exactly under exact arithmetic".
* Python dicts are modelled as association lists with insertion-order
  semantics (`setKey` keeps the position of an existing key and appends fresh
  keys at the end, exactly like CPython dict assignment).
* Symbols are identified by natural numbers.
-/

set_option autoImplicit false

namespace WolfpackTrend

/-- Symbols are identified by natural numbers in this embedding. -/
abbrev Sym := ℕ

/-- Association-list lookup (first match) modelling Python `dict.get`. -/
def lookup {α : Type} : List (Sym × α) → Sym → Option α
  | [], _ => none
  | (k, v) :: rest, s => if k = s then some v else lookup rest s

/-- Association-list update modelling Python `dict[k] = v`: an existing key
keeps its position, a fresh key is appended at the end. -/
def setKey {α : Type} : List (Sym × α) → Sym → α → List (Sym × α)
  | [], s, v => [(s, v)]
  | (k, w) :: rest, s, v =>
      if k = s then (k, v) :: rest else (k, w) :: setKey rest s v

/-- Association-list removal modelling Python `dict.pop(k, None)`. -/
def delKey {α : Type} : List (Sym × α) → Sym → List (Sym × α)
  | [], _ => []
  | (k, w) :: rest, s =>
      if k = s then rest else (k, w) :: delKey rest s

/-- The keys of an association list, in iteration order. -/
def keysOf {α : Type} (l : List (Sym × α)) : List Sym := l.map Prod.fst

noncomputable section
open Classical

/-! ## core/math_utils.py — weight caps and the volatility estimator -/

/-- The `1e-8` tolerance used throughout the source. -/
def eps8 : ℝ := 1 / 100000000

/-- Gross exposure of a weight vector: `sum(abs(w) for w in weights.values())`. -/
def grossOf (w : List (Sym × ℝ)) : ℝ := (w.map (fun p => |p.2|)).sum

/-- Net exposure of a weight vector: `sum(weights.values())`. -/
def netOf (w : List (Sym × ℝ)) : ℝ := (w.map (fun p => p.2)).sum

/-- `apply_per_name_cap`: clip each weight to `[-max_weight, +max_weight]`. -/
def apply_per_name_cap (w : List (Sym × ℝ)) (max_weight : ℝ) : List (Sym × ℝ) :=
  w.map (fun p => (p.1, max (-max_weight) (min max_weight p.2)))

/-- The `{s: w * scale for s, w in weights.items()}` comprehensions. -/
def scaleWeights (c : ℝ) (w : List (Sym × ℝ)) : List (Sym × ℝ) :=
  w.map (fun p => (p.1, p.2 * c))

/-- `apply_gross_cap`: if gross exposure exceeds `max_gross`, scale down
proportionally. -/
def apply_gross_cap (w : List (Sym × ℝ)) (max_gross : ℝ) : List (Sym × ℝ) :=
  if grossOf w > max_gross then scaleWeights (max_gross / grossOf w) w else w

/-- `apply_net_cap`: if `abs(net exposure)` exceeds `max_net`, scale down
proportionally. -/
def apply_net_cap (w : List (Sym × ℝ)) (max_net : ℝ) : List (Sym × ℝ) :=
  if |netOf w| > max_net then scaleWeights (max_net / |netOf w|) w else w

/-- Sample variance with `n - 1` denominator, as computed inline in
`estimate_portfolio_vol`. -/
def sampleVariance (returns : List ℝ) : ℝ :=
  let mean := returns.sum / (returns.length : ℝ)
  ((returns.map (fun r => (r - mean) ^ 2)).sum) / ((returns.length : ℝ) - 1)

/-- Whether a symbol ends up with an entry in `daily_variances`: it must be a
key of the returns map with at least `min_obs` observations.  (The stateful
wrapper `_estimate_portfolio_vol` drops short windows before calling the core
function; the core function skips them again, so the gate is the same.) -/
def hasVarianceData (rets : List (Sym × List ℝ)) (min_obs : ℕ) (s : Sym) : Bool :=
  match lookup rets s with
  | none => false
  | some l => decide (min_obs ≤ l.length)

/-- `symbols_with_weight`: the entries whose weight is non-negligible. -/
def weightedEntries (weights : List (Sym × ℝ)) : List (Sym × ℝ) :=
  weights.filter (fun p => decide (|p.2| > eps8))

/-- `estimate_portfolio_vol` from core/math_utils.py: diagonal annualized
portfolio volatility, or `none` when any non-negligible-weight symbol lacks
sufficient variance data. -/
def estimate_portfolio_vol (weights : List (Sym × ℝ)) (rets : List (Sym × List ℝ))
    (min_obs : ℕ) : Option ℝ :=
  if (keysOf (weightedEntries weights)).all (hasVarianceData rets min_obs) then
    some (Real.sqrt (((weightedEntries weights).map
      (fun p => p.2 ^ 2 * sampleVariance ((lookup rets p.1).getD []))).sum)
      * Real.sqrt 252)
  else
    none

/-! ## risk/portfolio.py — the weekly target pipeline -/

/-- Engine parameters (constructor arguments of
`TargetVolPortfolioConstructionModel`, after its `max(1, ...)` clamps). -/
structure RiskCfg where
  target_vol_annual : ℝ
  max_gross : ℝ
  max_net : ℝ
  max_weight : ℝ
  scaling_days : ℕ
  rebalance_interval : ℕ
  min_obs : ℕ
  dead_band : ℝ

/-- An insight as consumed by `CreateTargets`.  `weight` models
`Insight.Weight` (a missing weight is modelled as `0`, which is also what the
source's `insight.Weight if insight.Weight else 0.0` produces on the falsy
values `None` and `0.0`). -/
structure Insight where
  sym : Sym
  up : Bool
  weight : ℝ
  genTime : Option ℕ
  active : Bool

/-- The replacement condition of the `latest_by_symbol` loop:
`previous is None or generated is None or generated >= previous`. -/
def replaceLatest (previous generated : Option ℕ) : Bool :=
  match previous, generated with
  | none, _ => true
  | _, none => true
  | some p, some g => decide (p ≤ g)

/-- The `latest_by_symbol` dictionary: one insight per symbol, keeping the most
recently generated one (with the source's tie/None handling). -/
def latestBySymbol (ins : List Insight) : List (Sym × Insight) :=
  (ins.foldl
    (fun (acc : List (Sym × Insight) × List (Sym × Option ℕ)) i =>
      if replaceLatest ((lookup acc.2 i.sym).getD none) i.genTime then
        (setKey acc.1 i.sym i, setKey acc.2 i.sym i.genTime)
      else acc)
    ([], [])).1

/-- The `raw_weights` dictionary: `sign * weight` per deduplicated insight. -/
def rawWeights (latest : List (Sym × Insight)) : List (Sym × ℝ) :=
  latest.map (fun p => (p.1, (if p.2.up then (1 : ℝ) else -1) * p.2.weight))

/-- Normalization step: `{s: w / total_abs for s, w in raw_weights.items()}`. -/
def normalizeRaw (raw : List (Sym × ℝ)) : List (Sym × ℝ) :=
  raw.map (fun p => (p.1, p.2 / grossOf raw))

/-- The volatility scaling factor: `target_vol_annual / vol_annual` when the
estimate is available and above `1e-8`, otherwise `1` (the source skips the
multiplication, which is the same thing in exact arithmetic). -/
def volScaleFactor (cfg : RiskCfg) (vol : Option ℝ) : ℝ :=
  match vol with
  | some v => if v > eps8 then cfg.target_vol_annual / v else 1
  | none => 1

/-- The fixed cap order of `_compute_weekly_targets`:
per-name cap, then gross cap, then net cap. -/
def applyCaps (cfg : RiskCfg) (w : List (Sym × ℝ)) : List (Sym × ℝ) :=
  apply_net_cap (apply_gross_cap (apply_per_name_cap w cfg.max_weight) cfg.max_gross)
    cfg.max_net

/-- `_compute_weekly_targets`: returns the new `weekly_targets` and
`signal_strengths` maps computed from the active insights and the current
rolling-returns state.  Returns `([], [])` on a degenerate signal set. -/
def computeWeeklyTargets (cfg : RiskCfg) (ins : List Insight)
    (rets : List (Sym × List ℝ)) : List (Sym × ℝ) × List (Sym × ℝ) :=
  let latest := latestBySymbol ins
  let raw := rawWeights latest
  if grossOf raw < eps8 then ([], [])
  else
    let normalized := normalizeRaw raw
    let vol := estimate_portfolio_vol normalized rets cfg.min_obs
    let capped := applyCaps cfg (scaleWeights (volScaleFactor cfg vol) normalized)
    (capped, latest.map (fun p => (p.1, p.2.weight)))

/-! ## core/math_utils.py — `build_scaling_schedule`

Python's `round` rounds half to even; `rheR` models it at the integer level
and `round4` models `round(x, 4)`. -/

/-- Round half to even, as Python's `round` does on exact ties. -/
def rheR (x : ℝ) : ℤ :=
  if Int.fract x = 1 / 2 then (if 2 ∣ ⌊x⌋ then ⌊x⌋ else ⌊x⌋ + 1) else round x

/-- Python `round(x, 4)`. -/
def round4 (x : ℝ) : ℝ := ((rheR (x * 10000) : ℤ) : ℝ) / 10000

/-- `build_scaling_schedule` from core/math_utils.py: a cumulative scaling
schedule of length `max(1, scaling_days)`; entry `i` (1-indexed) is
`round((i/n) ** (1/front_load_factor), 4)` with the final entry forced to
exactly `1.0`. -/
def build_scaling_schedule (scaling_days : ℕ) (front_load_factor : ℝ) : List ℝ :=
  let n := max 1 scaling_days
  if n ≤ 1 then [1]
  else
    (((List.range n).map
        (fun i => round4 ((((i + 1 : ℕ) : ℝ) / (n : ℝ)) ^ (1 / front_load_factor)))).dropLast)
      ++ [1]

/-! ## risk/portfolio.py — classification and the `CreateTargets` machine -/

/-- Rebalance classification labels of `_classify_symbols`. -/
inductive Action where
  | NEW_ENTRY : Action
  | FLIP : Action
  | RESIZE : Action
  | HOLD : Action
  | EXIT : Action
deriving DecidableEq

/-- Per-symbol scaling state (an entry of `symbol_scale_state`). -/
structure ScaleState where
  scale_day : ℕ
  is_scaling : Bool
deriving DecidableEq

/-- The per-symbol branch chain of `_classify_symbols`.  `none` models the
`continue` case (symbol skipped); `≠` between comparisons models Python's
`!=` on booleans. -/
def classifyOne (hasNew wasTargeted : Bool) (new_w old_w actual_w dead_band : ℝ) :
    Option Action :=
  if hasNew = true ∧ wasTargeted = false ∧ ¬ |actual_w| > eps8 then some Action.NEW_ENTRY
  else if hasNew = true ∧ wasTargeted = false ∧ |actual_w| > eps8 then
    (if ¬ ((actual_w > 0) ↔ (new_w > 0)) then some Action.FLIP else some Action.RESIZE)
  else if hasNew = false ∧ (wasTargeted = true ∨ |actual_w| > eps8) then some Action.EXIT
  else if hasNew = false ∧ wasTargeted = false ∧ ¬ |actual_w| > eps8 then none
  else if ¬ ((new_w > 0) ↔ (old_w > 0)) then some Action.FLIP
  else if |new_w - actual_w| ≤ dead_band then some Action.HOLD
  else some Action.RESIZE

/-- A map keyed by construction: at most one entry per key of `L`, whose value
is a function of the key.  `classifySymbols` below is definitionally of this
shape, which the key-uniqueness lemmas exploit. -/
def keyedMap {β : Type} (g : Sym → Option β) (L : List Sym) : List (Sym × β) :=
  L.filterMap (fun t => match g t with | none => none | some a => some (t, a))

/-- `_classify_symbols`: classify every symbol appearing in any of the three
maps (the source iterates a set union; the embedding iterates the
deduplicated concatenation, which has the same members). -/
def classifySymbols (new_targets old_targets actual_weights : List (Sym × ℝ))
    (dead_band : ℝ) : List (Sym × Action) :=
  ((keysOf new_targets ++ keysOf old_targets ++ keysOf actual_weights).dedup).filterMap
    (fun s =>
      match classifyOne ((lookup new_targets s).isSome) ((lookup old_targets s).isSome)
          ((lookup new_targets s).getD 0) ((lookup old_targets s).getD 0)
          ((lookup actual_weights s).getD 0) dead_band with
      | none => none
      | some a => some (s, a))

/-- `self.scaling_days = max(1, int(scaling_days))`. -/
def effSd (cfg : RiskCfg) : ℕ := max 1 cfg.scaling_days

/-- `self.rebalance_interval_trading_days = max(1, int(...))`. -/
def effInterval (cfg : RiskCfg) : ℕ := max 1 cfg.rebalance_interval

/-- `_get_scaling_schedule`: pick the precomputed schedule by signal strength
(strong `front_load_factor = 2.0`, moderate `1.3`, weak `1.0`). -/
def scheduleFor (cfg : RiskCfg) (signal_strength : ℝ) : List ℝ :=
  if signal_strength ≥ 7/10 then build_scaling_schedule (effSd cfg) 2
  else if signal_strength ≥ 3/10 then build_scaling_schedule (effSd cfg) (13/10)
  else build_scaling_schedule (effSd cfg) 1

/-- The `counter_rebalance` condition of `CreateTargets`:
`trading_days_since_rebalance is None or ≥ rebalance_interval_trading_days`. -/
def counterRebalance (cfg : RiskCfg) (days : Option ℕ) : Bool :=
  match days with
  | none => true
  | some d => decide (effInterval cfg ≤ d)

/-- The state of `TargetVolPortfolioConstructionModel` read and written by
`CreateTargets`.  `rolling_returns` is only read here (it is written by
`UpdateReturns`).  Fields that feed exclusively the loggers or the execution
layer (`week_plan`, `current_week_id`, `expected_prices`,
`last_classifications`, `last_cancel_check_date`) are outside this model. -/
structure PCMState where
  weekly_targets : List (Sym × ℝ)
  signal_strengths : List (Sym × ℝ)
  symbol_scale_state : List (Sym × ScaleState)
  trading_days_since_rebalance : Option ℕ
  is_rebalance_day : Bool
  previous_weekly_targets : List (Sym × ℝ)
  rolling_returns : List (Sym × List ℝ)

/-- Step 4 of `CreateTargets`: update per-symbol scale state from the
classifications. -/
def updateScaleStates (st0 : List (Sym × ScaleState)) (cls : List (Sym × Action)) :
    List (Sym × ScaleState) :=
  cls.foldl
    (fun acc p =>
      match p.2 with
      | Action.NEW_ENTRY => setKey acc p.1 ⟨0, true⟩
      | Action.FLIP => setKey acc p.1 ⟨0, true⟩
      | Action.RESIZE => setKey acc p.1 ⟨0, false⟩
      | Action.HOLD => setKey acc p.1 ⟨0, false⟩
      | Action.EXIT => delKey acc p.1)
    st0

/-- Step 5 of `CreateTargets`: immediate 0%-weight instructions for EXIT and
FLIP symbols. -/
def exitFlipTargets (cls : List (Sym × Action)) : List (Sym × ℝ) :=
  cls.filterMap
    (fun p =>
      match p.2 with
      | Action.EXIT => some (p.1, 0)
      | Action.FLIP => some (p.1, 0)
      | _ => none)

/-- The `flip_symbols` set collected in step 5. -/
def flipSymbols (cls : List (Sym × Action)) : List Sym :=
  (cls.filter (fun p => decide (p.2 = Action.FLIP))).map Prod.fst

/-- The non-rebalance-day advance of scale states: `scale_day` increments up
to `scaling_days - 1`, after which scaling completes. -/
def advanceScaleStates (cfg : RiskCfg) (states : List (Sym × ScaleState)) :
    List (Sym × ScaleState) :=
  states.map
    (fun p =>
      if p.2.is_scaling then
        if p.2.scale_day < effSd cfg - 1 then (p.1, ⟨p.2.scale_day + 1, true⟩)
        else (p.1, ⟨p.2.scale_day, false⟩)
      else p)

/-- One pass of the daily emission loop body for the entry `p` of
`weekly_targets`: FLIP symbols are skipped on the rebalance day, actively
scaling symbols emit the scheduled fraction of their final weight, and on a
rebalance day RESIZE symbols emit their full weight.  (`cls` is only
consulted on a rebalance day, exactly as in the source, where
`classifications` is undefined on other days.) -/
def emitOne (cfg : RiskCfg) (strengths : List (Sym × ℝ))
    (scale_states : List (Sym × ScaleState)) (is_reb : Bool) (flips : List Sym)
    (cls : List (Sym × Action)) (p : Sym × ℝ) : Option (Sym × ℝ) :=
  if is_reb ∧ p.1 ∈ flips then none
  else
    let state := (lookup scale_states p.1).getD ⟨0, false⟩
    if state.is_scaling then
      let schedule := scheduleFor cfg ((lookup strengths p.1).getD (1/2))
      some (p.1, p.2 * schedule.getD (min state.scale_day (schedule.length - 1)) 0)
    else if is_reb then
      (if lookup cls p.1 = some Action.RESIZE then some (p.1, p.2) else none)
    else none

/-- The daily emission loop at the end of `CreateTargets`. -/
def emitTargets (cfg : RiskCfg) (weekly strengths : List (Sym × ℝ))
    (scale_states : List (Sym × ScaleState)) (is_reb : Bool) (flips : List Sym)
    (cls : List (Sym × Action)) : List (Sym × ℝ) :=
  weekly.filterMap (emitOne cfg strengths scale_states is_reb flips cls)

/-- `CreateTargets` as a pure state-transition function.  Extra inputs besides
the state: the insights delivered this day and the actual-holdings snapshot
(the output of `_get_actual_weights`).  The once-per-day stale-order
cancellation call only touches the execution model and emits nothing, so it
does not appear in this state.  Output: the emitted `(symbol, weight)` target
instructions, in order, and the new state. -/
def createTargets (cfg : RiskCfg) (st : PCMState) (insights : List Insight)
    (actual : List (Sym × ℝ)) : List (Sym × ℝ) × PCMState :=
  if insights = [] then ([], st)
  else
    let active := insights.filter (fun i => i.active)
    if active = [] then ([], st)
    else
      let is_reb := st.is_rebalance_day ||
        counterRebalance cfg st.trading_days_since_rebalance
      if is_reb then
        let wk := computeWeeklyTargets cfg active st.rolling_returns
        let cls := classifySymbols wk.1 st.previous_weekly_targets actual cfg.dead_band
        let states1 := updateScaleStates st.symbol_scale_state cls
        let emitted := emitTargets cfg wk.1 wk.2 states1 true (flipSymbols cls) cls
        (exitFlipTargets cls ++ emitted,
          { weekly_targets := wk.1
            signal_strengths := wk.2
            symbol_scale_state := states1
            trading_days_since_rebalance := some 1
            is_rebalance_day := false
            previous_weekly_targets := wk.1
            rolling_returns := st.rolling_returns })
      else
        let states1 := advanceScaleStates cfg st.symbol_scale_state
        let emitted := emitTargets cfg st.weekly_targets st.signal_strengths states1
          false [] []
        (emitted,
          { st with
            symbol_scale_state := states1
            trading_days_since_rebalance := st.trading_days_since_rebalance.map (· + 1)
            is_rebalance_day := false })

end

/-! ## execution/cancellation.py — the stale-order rule (claim C4) -/

/-- Python string `<` on character lists (lexicographic by code point). -/
def pyLt : List Char → List Char → Bool
  | [], [] => false
  | [], _ :: _ => true
  | _ :: _, [] => false
  | a :: as, b :: bs => if a < b then true else if b < a then false else pyLt as bs

/-- `should_cancel_signal_aware` from execution/cancellation.py.  The empty
list models Python's falsy guard (`None` or `""`). -/
def should_cancel_signal_aware (order_week_id current_week_id : List Char) : Bool :=
  if order_week_id = [] ∨ current_week_id = [] then false
  else pyLt order_week_id current_week_id

/-! ## execution/execution.py — order-type selection (claim C9) -/

/-- The kind of order placed, with the limit offset percentage used. -/
inductive OrderKind where
  | market : OrderKind
  | limit : ℚ → OrderKind
deriving DecidableEq

/-- Constructor parameters of `SignalStrengthExecutionModel`. -/
structure ExecCfg where
  strong_threshold : ℚ
  moderate_threshold : ℚ
  strong_offset_pct : ℚ
  moderate_offset_pct : ℚ
  weak_offset_pct : ℚ

/-- The constructor defaults (0.70 / 0.30 / 0.0 / 0.005 / 0.015). -/
def defaultExecCfg : ExecCfg := ⟨7/10, 3/10, 0, 5/1000, 15/1000⟩

/-- The `is_exit` test of `Execute`: the order closes or reduces an invested
position to strictly below 1% of its current size. -/
def isExitOrder (invested : Bool) (quantity unordered : ℚ) : Bool :=
  invested && decide (|quantity + unordered| < |quantity| * (1/100))

/-- The order-kind decision of `Execute`: exits are market orders, everything
else is a limit order at a signal-strength-dependent offset. -/
def selectOrderKind (cfg : ExecCfg) (invested : Bool) (quantity unordered strength : ℚ) :
    OrderKind :=
  if isExitOrder invested quantity unordered then OrderKind.market
  else if strength ≥ cfg.strong_threshold then OrderKind.limit cfg.strong_offset_pct
  else if strength ≥ cfg.moderate_threshold then OrderKind.limit cfg.moderate_offset_pct
  else OrderKind.limit cfg.weak_offset_pct

/-! ## core/formatting.py — order tags (claim C10) -/

/-- Decimal digit accumulator for rendering naturals. -/
def natDigitsAux : ℕ → ℕ → List Char → List Char
  | 0, _, acc => acc
  | fuel + 1, n, acc =>
      if n < 10 then Nat.digitChar (n % 10) :: acc
      else natDigitsAux fuel (n / 10) (Nat.digitChar (n % 10) :: acc)

/-- Decimal rendering of a natural number, as Python `str`. -/
def natChars (n : ℕ) : List Char := natDigitsAux (n + 1) n []

/-- Round half to even on rationals (Python formatting ties). -/
def rheQ (q : ℚ) : ℤ :=
  if q - ⌊q⌋ < 1/2 then ⌊q⌋
  else if q - ⌊q⌋ > 1/2 then ⌊q⌋ + 1
  else if 2 ∣ ⌊q⌋ then ⌊q⌋ else ⌊q⌋ + 1

/-- Python `f"{x:.4f}"` under exact arithmetic. -/
def fmt4f (q : ℚ) : List Char :=
  let n := rheQ (q * 10000)
  let m := n.natAbs
  let frac := natChars (m % 10000)
  (if n < 0 then ['-'] else []) ++ natChars (m / 10000)
    ++ '.' :: (List.replicate (4 - frac.length) '0' ++ frac)

/-- `build_order_tag`:
`tier=<tier>;signal=<signal:.4f>;week_id=<week_id>;scale_day=<scale_day>`. -/
def build_order_tag (tier : List Char) (signal_strength : ℚ) (week_id : List Char)
    (scale_day : ℕ) : List Char :=
  "tier=".data ++ tier ++ ";signal=".data ++ fmt4f signal_strength
    ++ ";week_id=".data ++ week_id ++ ";scale_day=".data ++ natChars scale_day

/-- The marker searched by the regex `week_id=([^;]+)`. -/
def markerChars : List Char := "week_id=".data

/-- The 7-character name `week_id` (without `=`), used to state the amended
tier hypothesis. -/
def marker7 : List Char := "week_id".data

/-- Longest run of non-`;` characters (the regex capture `[^;]+`). -/
def takeNonSemi : List Char → List Char
  | [] => []
  | c :: rest => if c = ';' then [] else c :: takeNonSemi rest

/-- Whether the regex `week_id=([^;]+)` matches at the head of `l`:
the eight marker characters followed by at least one non-`;` character. -/
def goodAtB (l : List Char) : Bool :=
  decide (l.take 8 = markerChars) && decide (takeNonSemi (l.drop 8) ≠ [])

/-- `re.search(r'week_id=([^;]+)', tag)`: the capture of the leftmost
match. -/
def findWeekId : List Char → Option (List Char)
  | [] => none
  | c :: rest =>
      if goodAtB (c :: rest) then some (takeNonSemi ((c :: rest).drop 8))
      else findWeekId rest

/-- The whitespace set of Python `str.strip()`. -/
def isPySpace (c : Char) : Bool :=
  c = ' ' || c = '\t' || c = '\n' || c = '\r' || c = '\x0b' || c = '\x0c'

/-- Python `str.strip()`. -/
def pyStrip (l : List Char) : List Char :=
  ((l.dropWhile isPySpace).reverse.dropWhile isPySpace).reverse

/-- `extract_week_id_from_tag` from core/formatting.py. -/
def extract_week_id_from_tag (tag : List Char) : Option (List Char) :=
  if tag = [] then none
  else
    match findWeekId tag with
    | none => none
    | some cap => if pyStrip cap = [] then none else some (pyStrip cap)

/-- Whether `pat` occurs as a contiguous substring of `l`. -/
def hasSubstr (pat : List Char) : List Char → Bool
  | [] => decide (pat = [])
  | c :: rest => decide ((c :: rest).take pat.length = pat) || hasSubstr pat rest

noncomputable section
open Classical

/-! ## Cap-chain lemmas -/

lemma grossOf_nonneg (w : List (Sym × ℝ)) : 0 ≤ grossOf w := by
  unfold grossOf
  apply List.sum_nonneg
  intro x hx
  obtain ⟨p, _, rfl⟩ := List.mem_map.mp hx
  exact abs_nonneg _

lemma grossOf_scale (c : ℝ) (w : List (Sym × ℝ)) :
    grossOf (scaleWeights c w) = |c| * grossOf w := by
  unfold grossOf scaleWeights
  induction w with
  | nil => simp
  | cons p rest ih =>
      simp only [List.map_cons, List.sum_cons] at ih ⊢
      rw [ih, abs_mul]
      ring

lemma netOf_scale (c : ℝ) (w : List (Sym × ℝ)) :
    netOf (scaleWeights c w) = netOf w * c := by
  unfold netOf scaleWeights
  induction w with
  | nil => simp
  | cons p rest ih =>
      simp only [List.map_cons, List.sum_cons] at ih ⊢
      rw [ih]
      ring

lemma mem_apply_per_name_cap {w : List (Sym × ℝ)} {mw : ℝ} (hmw : 0 ≤ mw)
    {p : Sym × ℝ} (hp : p ∈ apply_per_name_cap w mw) : |p.2| ≤ mw := by
  unfold apply_per_name_cap at hp
  obtain ⟨q, _, rfl⟩ := List.mem_map.mp hp
  rw [abs_le]
  refine ⟨le_max_left _ _, max_le (by linarith) (min_le_left _ _)⟩

lemma mem_scaleWeights_bound {w : List (Sym × ℝ)} {mw c : ℝ} (hc : |c| ≤ 1)
    (hw : ∀ p ∈ w, |p.2| ≤ mw) : ∀ p ∈ scaleWeights c w, |p.2| ≤ mw := by
  intro p hp
  unfold scaleWeights at hp
  obtain ⟨q, hq, rfl⟩ := List.mem_map.mp hp
  have hq2 := hw q hq
  have h0 : (0 : ℝ) ≤ mw := le_trans (abs_nonneg q.2) hq2
  calc |(q.1, q.2 * c).2| = |q.2| * |c| := abs_mul _ _
    _ ≤ mw * 1 := mul_le_mul hq2 hc (abs_nonneg c) h0
    _ = mw := mul_one mw

lemma scaleWeights_one (w : List (Sym × ℝ)) : scaleWeights 1 w = w := by
  unfold scaleWeights
  simp

lemma apply_gross_cap_spec (w : List (Sym × ℝ)) {mg : ℝ} (hmg : 0 ≤ mg) :
    ∃ c : ℝ, 0 ≤ c ∧ c ≤ 1 ∧ apply_gross_cap w mg = scaleWeights c w ∧
      grossOf (apply_gross_cap w mg) ≤ mg := by
  by_cases h : grossOf w > mg
  · have hg0 : 0 < grossOf w := lt_of_le_of_lt hmg h
    refine ⟨mg / grossOf w, div_nonneg hmg hg0.le, ?_, ?_, ?_⟩
    · rw [div_le_one hg0]; exact h.le
    · unfold apply_gross_cap; rw [if_pos h]
    · unfold apply_gross_cap
      rw [if_pos h, grossOf_scale, abs_of_nonneg (div_nonneg hmg hg0.le),
        div_mul_cancel₀ _ hg0.ne']
  · refine ⟨1, zero_le_one, le_refl 1, ?_, ?_⟩
    · unfold apply_gross_cap; rw [if_neg h, scaleWeights_one]
    · unfold apply_gross_cap; rw [if_neg h]; exact not_lt.mp h

lemma apply_net_cap_spec (w : List (Sym × ℝ)) {mn : ℝ} (hmn : 0 ≤ mn) :
    ∃ c : ℝ, 0 ≤ c ∧ c ≤ 1 ∧ apply_net_cap w mn = scaleWeights c w ∧
      |netOf (apply_net_cap w mn)| ≤ mn := by
  by_cases h : |netOf w| > mn
  · have hn0 : 0 < |netOf w| := lt_of_le_of_lt hmn h
    refine ⟨mn / |netOf w|, div_nonneg hmn hn0.le, ?_, ?_, ?_⟩
    · rw [div_le_one hn0]; exact h.le
    · unfold apply_net_cap; rw [if_pos h]
    · unfold apply_net_cap
      rw [if_pos h, netOf_scale, abs_mul, abs_of_nonneg (div_nonneg hmn hn0.le),
        mul_div_assoc', mul_comm, mul_div_assoc, div_self hn0.ne', mul_one]
  · refine ⟨1, zero_le_one, le_refl 1, ?_, ?_⟩
    · unfold apply_net_cap; rw [if_neg h, scaleWeights_one]
    · unfold apply_net_cap; rw [if_neg h]; exact not_lt.mp h

lemma applyCaps_bounds (cfg : RiskCfg) (v : List (Sym × ℝ))
    (hmw : 0 ≤ cfg.max_weight) (hmg : 0 ≤ cfg.max_gross) (hmn : 0 ≤ cfg.max_net) :
    grossOf (applyCaps cfg v) ≤ cfg.max_gross ∧
    |netOf (applyCaps cfg v)| ≤ cfg.max_net ∧
    ∀ p ∈ applyCaps cfg v, |p.2| ≤ cfg.max_weight := by
  set w1 := apply_per_name_cap v cfg.max_weight with hw1
  have h1 : ∀ p ∈ w1, |p.2| ≤ cfg.max_weight := fun p hp =>
    mem_apply_per_name_cap hmw hp
  obtain ⟨c2, hc2a, hc2b, he2, hg2⟩ := apply_gross_cap_spec w1 hmg
  set w2 := apply_gross_cap w1 cfg.max_gross with hw2
  have h2 : ∀ p ∈ w2, |p.2| ≤ cfg.max_weight := by
    rw [he2]
    exact mem_scaleWeights_bound (by rw [abs_of_nonneg hc2a]; exact hc2b) h1
  obtain ⟨c3, hc3a, hc3b, he3, hn3⟩ := apply_net_cap_spec w2 hmn
  have hcaps : applyCaps cfg v = apply_net_cap w2 cfg.max_net := rfl
  refine ⟨?_, ?_, ?_⟩
  · rw [hcaps, he3, grossOf_scale]
    calc |c3| * grossOf w2 ≤ 1 * grossOf w2 :=
          mul_le_mul_of_nonneg_right (by rw [abs_of_nonneg hc3a]; exact hc3b)
            (grossOf_nonneg w2)
      _ = grossOf w2 := one_mul _
      _ ≤ cfg.max_gross := hg2
  · rw [hcaps]; exact hn3
  · rw [hcaps, he3]
    exact mem_scaleWeights_bound (by rw [abs_of_nonneg hc3a]; exact hc3b) h2

/-- Claim C1: every weight vector produced by the weight normalizer & risk
capper (`_compute_weekly_targets`: normalization, optional vol scaling, then
`apply_per_name_cap`, `apply_gross_cap`, `apply_net_cap` in that fixed order)
satisfies all three caps simultaneously — gross exposure at most `max_gross`,
absolute net exposure at most `max_net`, and every individual weight at most
`max_weight` in absolute value — for all non-negative cap parameters, exactly
under exact arithmetic. -/
theorem weekly_targets_satisfy_caps (cfg : RiskCfg) (ins : List Insight)
    (rets : List (Sym × List ℝ))
    (hmw : 0 ≤ cfg.max_weight) (hmg : 0 ≤ cfg.max_gross) (hmn : 0 ≤ cfg.max_net) :
    grossOf (computeWeeklyTargets cfg ins rets).1 ≤ cfg.max_gross ∧
    |netOf (computeWeeklyTargets cfg ins rets).1| ≤ cfg.max_net ∧
    ∀ p ∈ (computeWeeklyTargets cfg ins rets).1, |p.2| ≤ cfg.max_weight := by
  unfold computeWeeklyTargets
  by_cases h : grossOf (rawWeights (latestBySymbol ins)) < eps8
  · rw [if_pos h]
    refine ⟨?_, ?_, ?_⟩
    · simpa [grossOf] using hmg
    · simpa [netOf] using hmn
    · intro p hp; simp at hp
  · rw [if_neg h]
    exact applyCaps_bounds cfg _ hmw hmg hmn

/-- Witness for C1 at a concrete configuration and input. -/
theorem weekly_targets_satisfy_caps_witness :
    ((0:ℝ) ≤ (3:ℝ)/20 ∧ (0:ℝ) ≤ (3:ℝ)/2 ∧ (0:ℝ) ≤ (1:ℝ)/2) ∧
    (grossOf (computeWeeklyTargets ⟨1/10, 3/2, 1/2, 3/20, 5, 5, 20, 3/200⟩ [] []).1
        ≤ (3:ℝ)/2 ∧
      |netOf (computeWeeklyTargets ⟨1/10, 3/2, 1/2, 3/20, 5, 5, 20, 3/200⟩ [] []).1|
        ≤ (1:ℝ)/2 ∧
      ∀ p ∈ (computeWeeklyTargets ⟨1/10, 3/2, 1/2, 3/20, 5, 5, 20, 3/200⟩ [] []).1,
        |p.2| ≤ (3:ℝ)/20) :=
  ⟨⟨by norm_num, by norm_num, by norm_num⟩,
    weekly_targets_satisfy_caps ⟨1/10, 3/2, 1/2, 3/20, 5, 5, 20, 3/200⟩ [] []
      (by norm_num) (by norm_num) (by norm_num)⟩

/-! ## The volatility gate (claim C3) -/

lemma hasVarianceData_eq_false {rets : List (Sym × List ℝ)} {min_obs : ℕ} {s : Sym}
    (h : ∀ l, lookup rets s = some l → l.length < min_obs) :
    hasVarianceData rets min_obs s = false := by
  unfold hasVarianceData
  cases hl : lookup rets s with
  | none => rfl
  | some l =>
      simp only [decide_eq_false_iff_not]
      exact not_le.mpr (h l hl)

lemma estimate_portfolio_vol_none {weights : List (Sym × ℝ)}
    {rets : List (Sym × List ℝ)} {min_obs : ℕ} {s : Sym} {w : ℝ}
    (hmem : (s, w) ∈ weights) (hw : |w| > eps8)
    (hlen : ∀ l, lookup rets s = some l → l.length < min_obs) :
    estimate_portfolio_vol weights rets min_obs = none := by
  unfold estimate_portfolio_vol
  rw [if_neg]
  intro hall
  rw [List.all_eq_true] at hall
  have hs : s ∈ keysOf (weightedEntries weights) := by
    unfold keysOf weightedEntries
    exact List.mem_map.mpr ⟨(s, w), List.mem_filter.mpr ⟨hmem, decide_eq_true hw⟩, rfl⟩
  have hvd := hall s hs
  rw [hasVarianceData_eq_false hlen] at hvd
  exact Bool.false_ne_true hvd

/-- Claim C3: (a) `estimate_portfolio_vol` returns `none` (the non-numeric
"unavailable" value) whenever any symbol carrying non-negligible weight
(`|w| > 1e-8`) has no return history or fewer than `min_obs` observations —
a strict all-or-nothing gate; and (b) when the estimate on the normalized
vector is unavailable, `_compute_weekly_targets` applies no vol scaling at
all: the result is exactly the caps applied to the normalized vector.
(The hypothesis `2 ≤ min_obs` reflects the engine, which fixes `min_obs = 20`;
it keeps every sample-variance denominator positive.) -/
theorem vol_gate_all_or_nothing :
    (∀ (weights : List (Sym × ℝ)) (rets : List (Sym × List ℝ)) (min_obs : ℕ)
        (s : Sym) (w : ℝ), 2 ≤ min_obs → (s, w) ∈ weights → |w| > eps8 →
        (∀ l, lookup rets s = some l → l.length < min_obs) →
        estimate_portfolio_vol weights rets min_obs = none) ∧
    (∀ (cfg : RiskCfg) (ins : List Insight) (rets : List (Sym × List ℝ)),
        ¬ grossOf (rawWeights (latestBySymbol ins)) < eps8 →
        estimate_portfolio_vol (normalizeRaw (rawWeights (latestBySymbol ins)))
            rets cfg.min_obs = none →
        (computeWeeklyTargets cfg ins rets).1 =
          applyCaps cfg (normalizeRaw (rawWeights (latestBySymbol ins)))) := by
  constructor
  · intro weights rets min_obs s w _ hmem hw hlen
    exact estimate_portfolio_vol_none hmem hw hlen
  · intro cfg ins rets hdeg hvol
    simp only [computeWeeklyTargets]
    rw [if_neg hdeg, hvol]
    show applyCaps cfg (scaleWeights (volScaleFactor cfg none) _) = _
    rw [show volScaleFactor cfg none = 1 from rfl, scaleWeights_one]

/-- Witness for C3: symbol `0` carries weight `1` but has no return history,
so the estimate is unavailable and the pipeline result is the unscaled capped
vector. -/
theorem vol_gate_all_or_nothing_witness :
    (2 ≤ 20 ∧ ((0 : Sym), (1 : ℝ)) ∈ [((0 : Sym), (1 : ℝ))] ∧ |(1 : ℝ)| > eps8 ∧
      estimate_portfolio_vol [((0 : Sym), (1 : ℝ))] [] 20 = none) ∧
    (¬ grossOf (rawWeights (latestBySymbol [⟨0, true, 1, none, true⟩])) < eps8 ∧
      (computeWeeklyTargets ⟨1/10, 3/2, 1/2, 3/20, 5, 5, 20, 3/200⟩
          [⟨0, true, 1, none, true⟩] []).1 =
        applyCaps ⟨1/10, 3/2, 1/2, 3/20, 5, 5, 20, 3/200⟩
          (normalizeRaw (rawWeights (latestBySymbol [⟨0, true, 1, none, true⟩])))) := by
  have hw : |(1 : ℝ)| > eps8 := by norm_num [eps8]
  have hlen : ∀ l, lookup ([] : List (Sym × List ℝ)) 0 = some l → l.length < 20 := by
    intro l hl
    simp [lookup] at hl
  have hdeg : ¬ grossOf (rawWeights (latestBySymbol [⟨0, true, 1, none, true⟩])) < eps8 := by
    norm_num [latestBySymbol, replaceLatest, setKey, lookup, rawWeights, grossOf, eps8]
  have hvol : estimate_portfolio_vol
      (normalizeRaw (rawWeights (latestBySymbol [⟨0, true, 1, none, true⟩]))) [] 20 = none := by
    apply vol_gate_all_or_nothing.1 _ _ 20 0 1 (by norm_num) _ hw hlen
    norm_num [latestBySymbol, replaceLatest, setKey, lookup, rawWeights, normalizeRaw,
      grossOf]
  refine ⟨⟨by norm_num, List.mem_singleton.mpr rfl, hw,
    vol_gate_all_or_nothing.1 _ _ 20 0 1 (by norm_num) (List.mem_singleton.mpr rfl) hw hlen⟩,
    hdeg, vol_gate_all_or_nothing.2 ⟨1/10, 3/2, 1/2, 3/20, 5, 5, 20, 3/200⟩ _ [] hdeg hvol⟩

/-! ## Lemmas for `build_scaling_schedule` (claim C6) -/

lemma rheR_le_floor_add_one (x : ℝ) : rheR x ≤ ⌊x⌋ + 1 := by
  unfold rheR
  split
  · split <;> omega
  · rw [round_eq]
    calc ⌊x + 1 / 2⌋ ≤ ⌊x + 1⌋ := Int.floor_mono (by linarith)
      _ = ⌊x⌋ + 1 := Int.floor_add_one x

lemma floor_le_rheR (x : ℝ) : ⌊x⌋ ≤ rheR x := by
  unfold rheR
  split
  · split <;> omega
  · rw [round_eq]
    exact Int.floor_mono (by linarith)

lemma fract_half_eq {x : ℝ} (h : Int.fract x = 1 / 2) : x = (⌊x⌋ : ℝ) + 1 / 2 := by
  have h0 := Int.floor_add_fract x
  rw [h] at h0
  linarith

lemma round_of_fract_half {x : ℝ} (h : Int.fract x = 1 / 2) : round x = ⌊x⌋ + 1 := by
  rw [round_eq]
  have hx := fract_half_eq h
  have h1 : x + 1 / 2 = ((⌊x⌋ + 1 : ℤ) : ℝ) := by push_cast; linarith
  rw [h1, Int.floor_intCast]

lemma rheR_mono {x y : ℝ} (hxy : x ≤ y) : rheR x ≤ rheR y := by
  rcases eq_or_lt_of_le hxy with rfl | hlt
  · exact le_refl _
  by_cases hy : Int.fract y = 1 / 2
  · have hyv := fract_half_eq hy
    have h2 : ⌊y⌋ ≤ rheR y := floor_le_rheR y
    by_cases hx : Int.fract x = 1 / 2
    · have hxv := fract_half_eq hx
      have hfl : ⌊x⌋ < ⌊y⌋ := by
        have hc : (⌊x⌋ : ℝ) < (⌊y⌋ : ℝ) := by linarith
        exact_mod_cast hc
      have h1 : rheR x ≤ ⌊x⌋ + 1 := rheR_le_floor_add_one x
      omega
    · have hrx : rheR x = round x := by unfold rheR; rw [if_neg hx]
      have h3 : ⌊x + 1 / 2⌋ < ⌊y⌋ + 1 := by
        apply Int.floor_lt.mpr
        push_cast
        linarith
      rw [hrx, round_eq]
      omega
  · have hry : rheR y = round y := by unfold rheR; rw [if_neg hy]
    have hx_le : rheR x ≤ round x := by
      by_cases hx : Int.fract x = 1 / 2
      · rw [round_of_fract_half hx]
        exact rheR_le_floor_add_one x
      · unfold rheR; rw [if_neg hx]
    have hr : round x ≤ round y := by
      rw [round_eq, round_eq]
      exact Int.floor_mono (by linarith)
    omega

lemma round4_mono {x y : ℝ} (h : x ≤ y) : round4 x ≤ round4 y := by
  unfold round4
  apply (div_le_div_iff_of_pos_right (by norm_num : (0:ℝ) < 10000)).mpr
  exact_mod_cast rheR_mono (mul_le_mul_of_nonneg_right h (by norm_num))

lemma round4_one : round4 1 = 1 := by
  have h0 : (1 : ℝ) * 10000 = ((10000 : ℤ) : ℝ) := by norm_num
  unfold round4 rheR
  rw [h0, Int.fract_intCast, round_intCast]
  rw [if_neg (by norm_num : ¬ (0 : ℝ) = 1 / 2)]
  norm_num

lemma round4_le_one {x : ℝ} (h : x ≤ 1) : round4 x ≤ 1 := by
  calc round4 x ≤ round4 1 := round4_mono h
    _ = 1 := round4_one

/-- Claim C6: for every `scaling_days = N ≥ 1` and `front_load_factor ≥ 1`,
`build_scaling_schedule` returns a list of length `N` whose `i`-th entry
(1-indexed) is `round((i/N)^(1/front_load_factor), 4)` except that the final
entry is exactly `1.0`, and the list is non-decreasing. -/
theorem build_scaling_schedule_spec (sd : ℕ) (flf : ℝ) (hsd : 1 ≤ sd) (hflf : 1 ≤ flf) :
    (build_scaling_schedule sd flf).length = sd ∧
    (∀ i : ℕ, i + 1 < sd →
      (build_scaling_schedule sd flf)[i]? =
        some (round4 ((((i + 1 : ℕ) : ℝ) / (sd : ℝ)) ^ (1 / flf)))) ∧
    (build_scaling_schedule sd flf).getLast? = some 1 ∧
    List.Pairwise (· ≤ ·) (build_scaling_schedule sd flf) := by
  have hn : max 1 sd = sd := max_eq_right hsd
  by_cases h1 : sd = 1
  · subst h1
    have hb : build_scaling_schedule 1 flf = [1] := by
      simp [build_scaling_schedule]
    refine ⟨by rw [hb]; rfl, ?_, by rw [hb]; rfl, by rw [hb]; simp⟩
    intro i hi
    omega
  · have hsd2 : 2 ≤ sd := by omega
    have hsdR : (0 : ℝ) < (sd : ℝ) := by positivity
    have he0 : (0 : ℝ) ≤ 1 / flf := div_nonneg zero_le_one (by linarith)
    have hb : build_scaling_schedule sd flf =
        (((List.range sd).map
            (fun i => round4 ((((i + 1 : ℕ) : ℝ) / (sd : ℝ)) ^ (1 / flf)))).dropLast)
          ++ [1] := by
      simp only [build_scaling_schedule]
      rw [hn, if_neg (by omega : ¬ sd ≤ 1)]
    set f : ℕ → ℝ := fun i => round4 ((((i + 1 : ℕ) : ℝ) / (sd : ℝ)) ^ (1 / flf)) with hf
    have hmono : ∀ a b : ℕ, a ≤ b → f a ≤ f b := by
      intro a b hab
      apply round4_mono
      apply Real.rpow_le_rpow (by positivity) _ he0
      apply (div_le_div_iff_of_pos_right hsdR).mpr
      exact_mod_cast Nat.add_le_add_right hab 1
    have hle1 : ∀ k : ℕ, k < sd → f k ≤ 1 := by
      intro k hk
      apply round4_le_one
      apply Real.rpow_le_one (by positivity) _ he0
      rw [div_le_one hsdR]
      exact_mod_cast hk
    refine ⟨?_, ?_, ?_, ?_⟩
    · rw [hb]
      simp only [List.length_append, List.length_dropLast, List.length_map,
        List.length_range, List.length_cons, List.length_nil]
      omega
    · intro i hi
      rw [hb]
      have hdl : ((List.range sd).map f).dropLast.length = sd - 1 := by
        simp [List.length_dropLast]
      have hi' : i < ((List.range sd).map f).dropLast.length := by omega
      rw [List.getElem?_append_left hi', List.getElem?_eq_getElem hi',
        List.getElem_dropLast, List.getElem_map]
      simp only [List.getElem_range]
    · rw [hb]
      exact List.getLast?_concat _
    · rw [hb]
      apply List.pairwise_append.mpr
      refine ⟨?_, by simp, ?_⟩
      · apply List.Pairwise.sublist (List.dropLast_sublist _)
        apply List.pairwise_map.mpr
        exact (List.pairwise_lt_range sd).imp (fun h => hmono _ _ (le_of_lt h))
      · intro a ha b hbm
        have hb1 : b = 1 := by simpa using hbm
        subst hb1
        have haL : a ∈ (List.range sd).map f := (List.dropLast_sublist _).subset ha
        obtain ⟨k, hk, rfl⟩ := List.mem_map.mp haL
        exact hle1 k (List.mem_range.mp hk)

/-- Witness for C6 at `scaling_days = 3`, `front_load_factor = 2`. -/
theorem build_scaling_schedule_spec_witness :
    (1 ≤ 3 ∧ (1 : ℝ) ≤ 2) ∧
    ((build_scaling_schedule 3 2).length = 3 ∧
      (∀ i : ℕ, i + 1 < 3 →
        (build_scaling_schedule 3 2)[i]? =
          some (round4 ((((i + 1 : ℕ) : ℝ) / (3 : ℝ)) ^ (1 / 2 : ℝ)))) ∧
      (build_scaling_schedule 3 2).getLast? = some 1 ∧
      List.Pairwise (· ≤ ·) (build_scaling_schedule 3 2)) :=
  ⟨⟨by norm_num, by norm_num⟩, build_scaling_schedule_spec 3 2 (by norm_num) (by norm_num)⟩

/-! ## The stale-order rule (claim C4) -/

lemma pyLt_iff_lex (a b : List Char) : pyLt a b = true ↔ List.Lex (· < ·) a b := by
  induction a generalizing b with
  | nil =>
      cases b with
      | nil =>
          constructor
          · intro h; exact absurd h (by simp [pyLt])
          · intro h; cases h
      | cons x xs =>
          constructor
          · intro _; exact List.Lex.nil
          · intro _; rfl
  | cons c cs ih =>
      cases b with
      | nil =>
          constructor
          · intro h; exact absurd h (by simp [pyLt])
          · intro h; cases h
      | cons d ds =>
          by_cases h1 : c < d
          · simp only [pyLt, if_pos h1]
            constructor
            · intro _; exact List.Lex.rel h1
            · intro _; trivial
          · by_cases h2 : d < c
            · simp only [pyLt, if_neg h1, if_pos h2]
              constructor
              · intro h; exact absurd h (by simp)
              · intro h
                cases h with
                | cons h' => exact absurd h2 (lt_irrefl _)
                | rel hr => exact absurd hr h1
            · have hcd : c = d := le_antisymm (not_lt.mp h2) (not_lt.mp h1)
              subst hcd
              simp only [pyLt, if_neg h1, if_neg h2]
              rw [ih ds]
              constructor
              · exact List.Lex.cons
              · intro h
                cases h with
                | cons h' => exact h'
                | rel hr => exact absurd hr h1

/-- Claim C4: `should_cancel_signal_aware` cancels exactly when the order's
recorded week_id is lexicographically less than the current cycle's week_id
(whenever both ids are present); an equal-or-greater week_id is never
cancelled by this rule; and in particular an order tagged `2024-01-02` is
cancelled once the current cycle is `2024-01-09` but not while it is still
`2024-01-02`. -/
theorem stale_cancel_iff_lex_lt :
    (∀ ow cw : List Char, ow ≠ [] → cw ≠ [] →
      (should_cancel_signal_aware ow cw = true ↔ List.Lex (· < ·) ow cw)) ∧
    (∀ ow cw : List Char, ¬ List.Lex (· < ·) ow cw →
      should_cancel_signal_aware ow cw = false) ∧
    should_cancel_signal_aware "2024-01-02".data "2024-01-09".data = true ∧
    should_cancel_signal_aware "2024-01-02".data "2024-01-02".data = false := by
  have key : ∀ ow cw : List Char, ow ≠ [] → cw ≠ [] →
      (should_cancel_signal_aware ow cw = true ↔ List.Lex (· < ·) ow cw) := by
    intro ow cw how hcw
    unfold should_cancel_signal_aware
    rw [if_neg (by tauto)]
    exact pyLt_iff_lex ow cw
  refine ⟨key, ?_, by decide, by decide⟩
  intro ow cw h
  by_cases he : ow = [] ∨ cw = []
  · unfold should_cancel_signal_aware
    rw [if_pos he]
  · push_neg at he
    cases hb : should_cancel_signal_aware ow cw
    · rfl
    · exact absurd ((key ow cw he.1 he.2).mp hb) h

/-- Witness for C4 at the concrete ids of the claim. -/
theorem stale_cancel_iff_lex_lt_witness :
    ("2024-01-02".data ≠ ([] : List Char) ∧ "2024-01-09".data ≠ ([] : List Char)) ∧
    (should_cancel_signal_aware "2024-01-02".data "2024-01-09".data = true ↔
      List.Lex (· < ·) "2024-01-02".data "2024-01-09".data) :=
  ⟨⟨by decide, by decide⟩, stale_cancel_iff_lex_lt.1 _ _ (by decide) (by decide)⟩

/-! ## Order-type selection (claim C9) -/

/-- Counterexample to claim C9 as stated: an order that reduces an invested
position by exactly 99% of its size (position 100, order −99) satisfies the
claim's "closes or reduces by ≥ 99%" reading, yet it is NOT sent as a market
order — `Execute` requires the remaining size to be strictly below 1%, so
this order is placed as a 0.5%-offset limit order. -/
theorem exit_exactly_99_pct_counterexample :
    |(100 : ℚ) + (-99)| ≤ |(100 : ℚ)| * (1/100) ∧
    selectOrderKind defaultExecCfg true 100 (-99) (1/2) ≠ OrderKind.market ∧
    selectOrderKind defaultExecCfg true 100 (-99) (1/2) = OrderKind.limit (5/1000) := by
  have hne : isExitOrder true 100 (-99) = false := by
    unfold isExitOrder
    rw [Bool.true_and, decide_eq_false_iff_not]
    norm_num
  have hsel : selectOrderKind defaultExecCfg true 100 (-99) (1/2) =
      OrderKind.limit (5/1000) := by
    unfold selectOrderKind
    rw [if_neg (show ¬ isExitOrder true 100 (-99) = true by rw [hne]; exact Bool.false_ne_true),
      if_neg (show ¬ ((1:ℚ)/2 ≥ defaultExecCfg.strong_threshold) from by
        norm_num [defaultExecCfg]),
      if_pos (show (1:ℚ)/2 ≥ defaultExecCfg.moderate_threshold from by
        norm_num [defaultExecCfg])]
    rfl
  refine ⟨by norm_num, ?_, hsel⟩
  rw [hsel]
  exact fun h => OrderKind.noConfusion h

/-- Claim C9 amended: with the default execution parameters, an order on an
invested position whose remaining size would be strictly below 1% of the
current size (it closes or reduces the position by MORE than 99%) is always a
market order regardless of signal strength; any non-exit order is a limit
order — at zero offset for strength ≥ 0.70, at 0.5% offset for
0.30 ≤ strength < 0.70, and at 1.5% offset below. -/
theorem order_kind_selection (q u s : ℚ) :
    (|q + u| < |q| * (1/100) →
      selectOrderKind defaultExecCfg true q u s = OrderKind.market) ∧
    (∀ invested : Bool, isExitOrder invested q u = false →
      ((s ≥ 7/10 → selectOrderKind defaultExecCfg invested q u s = OrderKind.limit 0) ∧
        (¬ s ≥ 7/10 → s ≥ 3/10 →
          selectOrderKind defaultExecCfg invested q u s = OrderKind.limit (5/1000)) ∧
        (¬ s ≥ 3/10 →
          selectOrderKind defaultExecCfg invested q u s = OrderKind.limit (15/1000)))) := by
  constructor
  · intro h
    have hex : isExitOrder true q u = true := by
      unfold isExitOrder
      rw [Bool.true_and]
      exact decide_eq_true h
    unfold selectOrderKind
    rw [if_pos hex]
  · intro invested hex
    have hnex : ¬ isExitOrder invested q u = true := by
      rw [hex]; exact Bool.false_ne_true
    refine ⟨?_, ?_, ?_⟩
    · intro h7
      unfold selectOrderKind
      rw [if_neg hnex, if_pos (show s ≥ defaultExecCfg.strong_threshold from h7)]
      rfl
    · intro h7 h3
      unfold selectOrderKind
      rw [if_neg hnex, if_neg (show ¬ s ≥ defaultExecCfg.strong_threshold from h7),
        if_pos (show s ≥ defaultExecCfg.moderate_threshold from h3)]
      rfl
    · intro h3
      have h7 : ¬ s ≥ (7:ℚ)/10 := fun h => h3 (le_trans (by norm_num) h)
      unfold selectOrderKind
      rw [if_neg hnex, if_neg (show ¬ s ≥ defaultExecCfg.strong_threshold from h7),
        if_neg (show ¬ s ≥ defaultExecCfg.moderate_threshold from h3)]
      rfl

/-- Witness for C9 (amended): a full close is a market order; a strong-signal
non-exit order is a zero-offset limit. -/
theorem order_kind_selection_witness :
    (|(100:ℚ) + (-100)| < |(100:ℚ)| * (1/100) ∧
      selectOrderKind defaultExecCfg true 100 (-100) (1/2) = OrderKind.market) ∧
    (isExitOrder false 100 (-100) = false ∧ (9:ℚ)/10 ≥ 7/10 ∧
      selectOrderKind defaultExecCfg false 100 (-100) (9/10) = OrderKind.limit 0) :=
  ⟨⟨by norm_num, (order_kind_selection 100 (-100) (1/2)).1 (by norm_num)⟩,
    by simp [isExitOrder], by norm_num,
    ((order_kind_selection 100 (-100) (9/10)).2 false (by simp [isExitOrder])).1
      (by norm_num)⟩

/-! ## Classification (claim C7) -/

/-- Counterexample to claim C7: a symbol with a new target `0.051`, no prior
target, currently held at `0.05` (same sign), dead-band `0.015` — the
deviation `0.001` lies within the dead-band, yet `_classify_symbols` labels
the symbol RESIZE: in this branch the dead-band is never consulted. -/
theorem resize_ignores_dead_band_counterexample :
    |(51/1000 : ℝ) - 1/20| ≤ 3/200 ∧
    classifyOne true false (51/1000) 0 (1/20) (3/200) = some Action.RESIZE := by
  constructor
  · rw [show (51/1000 : ℝ) - 1/20 = 1/1000 by norm_num,
      abs_of_pos (by norm_num : (0:ℝ) < 1/1000)]
    norm_num
  · have habs : |(1/20 : ℝ)| > eps8 := by
      rw [abs_of_pos (by norm_num : (0:ℝ) < 1/20)]
      norm_num [eps8]
    unfold classifyOne
    rw [if_neg (by tauto), if_pos ⟨rfl, rfl, habs⟩,
      if_neg (not_not_intro (iff_of_true (by norm_num) (by norm_num)))]

lemma classifyOne_resize_noprior (new_w old_w actual_w dead_band : ℝ)
    (hheld : |actual_w| > eps8) (hsign : (actual_w > 0) ↔ (new_w > 0)) :
    classifyOne true false new_w old_w actual_w dead_band = some Action.RESIZE := by
  unfold classifyOne
  rw [if_neg (by tauto), if_pos ⟨rfl, rfl, hheld⟩, if_neg (not_not_intro hsign)]

lemma classifyOne_hold (new_w old_w actual_w dead_band : ℝ)
    (hsign : (new_w > 0) ↔ (old_w > 0)) (hband : |new_w - actual_w| ≤ dead_band) :
    classifyOne true true new_w old_w actual_w dead_band = some Action.HOLD := by
  unfold classifyOne
  rw [if_neg (by simp), if_neg (by simp), if_neg (by simp), if_neg (by simp),
    if_neg (not_not_intro hsign), if_pos hband]

lemma classifyOne_flip_prior (new_w old_w actual_w dead_band : ℝ)
    (hsign : ¬ ((new_w > 0) ↔ (old_w > 0))) :
    classifyOne true true new_w old_w actual_w dead_band = some Action.FLIP := by
  unfold classifyOne
  rw [if_neg (by simp), if_neg (by simp), if_neg (by simp), if_neg (by simp),
    if_pos hsign]

/-- Claim C7 amended: a symbol with a new target, no prior target, and
currently held with the same sign is classified RESIZE unconditionally — the
dead-band test is not consulted in that branch; the dead-band HOLD test
applies only when both a new and a prior target exist with the same sign. -/
theorem classify_held_no_prior_same_sign :
    (∀ new_w old_w actual_w dead_band : ℝ, |actual_w| > eps8 →
      ((actual_w > 0) ↔ (new_w > 0)) →
      classifyOne true false new_w old_w actual_w dead_band = some Action.RESIZE) ∧
    (∀ new_w old_w actual_w dead_band : ℝ, ((new_w > 0) ↔ (old_w > 0)) →
      |new_w - actual_w| ≤ dead_band →
      classifyOne true true new_w old_w actual_w dead_band = some Action.HOLD) :=
  ⟨classifyOne_resize_noprior, classifyOne_hold⟩

/-- Witness for C7 (amended) at the dead-band scenario of the claim. -/
theorem classify_held_no_prior_same_sign_witness :
    (|(1/20 : ℝ)| > eps8 ∧ (((1/20 : ℝ) > 0) ↔ ((51/1000 : ℝ) > 0)) ∧
      classifyOne true false (51/1000) 0 (1/20) (3/200) = some Action.RESIZE) ∧
    ((((51/1000 : ℝ) > 0) ↔ ((1/20 : ℝ) > 0)) ∧ |(51/1000 : ℝ) - 1/20| ≤ 3/200 ∧
      classifyOne true true (51/1000) (1/20) (1/20) (3/200) = some Action.HOLD) := by
  have habs : |(1/20 : ℝ)| > eps8 := by
    rw [abs_of_pos (by norm_num : (0:ℝ) < 1/20)]
    norm_num [eps8]
  have hband : |(51/1000 : ℝ) - 1/20| ≤ 3/200 := by
    rw [show (51/1000 : ℝ) - 1/20 = 1/1000 by norm_num,
      abs_of_pos (by norm_num : (0:ℝ) < 1/1000)]
    norm_num
  exact ⟨⟨habs, iff_of_true (by norm_num) (by norm_num),
      classify_held_no_prior_same_sign.1 _ 0 _ _ habs
        (iff_of_true (by norm_num) (by norm_num))⟩,
    ⟨iff_of_true (by norm_num) (by norm_num), hband,
      classify_held_no_prior_same_sign.2 _ _ _ _
        (iff_of_true (by norm_num) (by norm_num)) hband⟩⟩

/-! ## Order-tag round-trip (claim C10) -/

lemma takeNonSemi_append_semi (w rest : List Char) (h : ∀ c ∈ w, c ≠ ';') :
    takeNonSemi (w ++ ';' :: rest) = w := by
  induction w with
  | nil => simp [takeNonSemi]
  | cons c w' ih =>
      have hc : c ≠ ';' := h c (List.mem_cons_self c w')
      rw [List.cons_append]
      show (if c = ';' then [] else c :: takeNonSemi (w' ++ ';' :: rest)) = c :: w'
      rw [if_neg hc, ih (fun d hd => h d (List.mem_cons_of_mem c hd))]

lemma findWeekId_cons_not_good {c : Char} {l : List Char}
    (hg : goodAtB (c :: l) = false) : findWeekId (c :: l) = findWeekId l := by
  show (if goodAtB (c :: l) then some (takeNonSemi ((c :: l).drop 8))
      else findWeekId l) = findWeekId l
  rw [hg]
  simp

lemma findWeekId_cons_good {c : Char} {l : List Char}
    (hg : goodAtB (c :: l) = true) :
    findWeekId (c :: l) = some (takeNonSemi ((c :: l).drop 8)) := by
  show (if goodAtB (c :: l) then some (takeNonSemi ((c :: l).drop 8))
      else findWeekId l) = _
  rw [hg]
  simp

lemma goodAtB_cons_ne {c : Char} (l : List Char) (hc : c ≠ 'w') :
    goodAtB (c :: l) = false := by
  unfold goodAtB
  have h1 : decide ((c :: l).take 8 = markerChars) = false := by
    apply decide_eq_false
    intro h
    rw [show markerChars = 'w' :: "eek_id=".data from rfl] at h
    rw [show (c :: l).take 8 = c :: l.take 7 from rfl] at h
    injection h with h1 _
    exact hc h1
  rw [h1, Bool.false_and]

lemma findWeekId_cons_ne {c : Char} (l : List Char) (hc : c ≠ 'w') :
    findWeekId (c :: l) = findWeekId l :=
  findWeekId_cons_not_good (goodAtB_cons_ne l hc)

lemma findWeekId_append_noW (P : List Char) (rest : List Char)
    (h : ∀ c ∈ P, c ≠ 'w') : findWeekId (P ++ rest) = findWeekId rest := by
  induction P with
  | nil => rfl
  | cons c P' ih =>
      rw [List.cons_append, findWeekId_cons_ne _ (h c (List.mem_cons_self c P')),
        ih (fun d hd => h d (List.mem_cons_of_mem c hd))]

lemma findWeekId_marker (l : List Char) (h : takeNonSemi l ≠ []) :
    findWeekId (markerChars ++ l) = some (takeNonSemi l) := by
  have hg : goodAtB ('w' :: ("eek_id=".data ++ l)) = true := by
    unfold goodAtB
    rw [Bool.and_eq_true]
    refine ⟨decide_eq_true ?_, decide_eq_true ?_⟩
    · exact List.take_left markerChars l
    · rw [show ('w' :: ("eek_id=".data ++ l)).drop 8 = l from List.drop_left markerChars l]
      exact h
  calc findWeekId (markerChars ++ l)
      = findWeekId ('w' :: ("eek_id=".data ++ l)) := rfl
    _ = some (takeNonSemi (('w' :: ("eek_id=".data ++ l)).drop 8)) :=
        findWeekId_cons_good hg
    _ = some (takeNonSemi l) := by
        rw [show ('w' :: ("eek_id=".data ++ l)).drop 8 = l from List.drop_left markerChars l]

lemma hasSubstr_cons_false {pat : List Char} {c : Char} {t : List Char}
    (h : hasSubstr pat (c :: t) = false) :
    (c :: t).take pat.length ≠ pat ∧ hasSubstr pat t = false := by
  unfold hasSubstr at h
  rw [Bool.or_eq_false_iff] at h
  exact ⟨decide_eq_false_iff_not.mp h.1, h.2⟩

lemma findWeekId_skip_clean (t : List Char) : ∀ rest : List Char,
    hasSubstr marker7 t = false →
    findWeekId (t ++ ';' :: rest) = findWeekId (';' :: rest) := by
  induction t with
  | nil => intro rest _; rfl
  | cons c t' ih =>
      intro rest ht
      obtain ⟨hhead, ht'⟩ := hasSubstr_cons_false ht
      rw [List.cons_append]
      by_cases hcw : c = 'w'
      · subst hcw
        have hg : goodAtB ('w' :: (t' ++ ';' :: rest)) = false := by
          unfold goodAtB
          have h1 : decide (('w' :: (t' ++ ';' :: rest)).take 8 = markerChars) = false := by
            apply decide_eq_false
            intro hmk
            have hmk' : (('w' :: t') ++ ';' :: rest).take 8 = markerChars := hmk
            by_cases hlen : 8 ≤ ('w' :: t').length
            · rw [List.take_append_of_le_length hlen] at hmk'
              have h2 := congrArg (List.take 7) hmk'
              rw [List.take_take] at h2
              rw [show (7 : ℕ) ⊓ 8 = 7 from rfl] at h2
              rw [show List.take 7 markerChars = marker7 from rfl] at h2
              exact hhead h2
            · push_neg at hlen
              rw [List.take_append_eq_append_take,
                List.take_of_length_le (by omega : ('w' :: t').length ≤ 8)] at hmk'
              obtain ⟨m, hm⟩ : ∃ m, 8 - ('w' :: t').length = m + 1 :=
                ⟨8 - ('w' :: t').length - 1, by
                  have : ('w' :: t').length = t'.length + 1 := rfl
                  omega⟩
              rw [hm, List.take_succ_cons] at hmk'
              have hmem : (';' : Char) ∈ markerChars := by
                rw [← hmk']
                exact List.mem_append.mpr (Or.inr (List.mem_cons_self _ _))
              exact absurd hmem (by decide)
          rw [h1, Bool.false_and]
        rw [findWeekId_cons_not_good hg]
        exact ih rest ht'
      · rw [findWeekId_cons_ne _ hcw]
        exact ih rest ht'

lemma digitChar_ne_w {m : ℕ} (hm : m < 10) : Nat.digitChar m ≠ 'w' := by
  interval_cases m <;> decide

lemma natDigitsAux_ne_w : ∀ (fuel n : ℕ) (acc : List Char),
    (∀ c ∈ acc, c ≠ 'w') → ∀ c ∈ natDigitsAux fuel n acc, c ≠ 'w' := by
  intro fuel
  induction fuel with
  | zero => intro n acc hacc; exact hacc
  | succ f ih =>
      intro n acc hacc
      unfold natDigitsAux
      split
      · intro c hc
        rcases List.mem_cons.mp hc with rfl | hmem
        · exact digitChar_ne_w (Nat.mod_lt _ (by norm_num))
        · exact hacc c hmem
      · apply ih
        intro c hc
        rcases List.mem_cons.mp hc with rfl | hmem
        · exact digitChar_ne_w (Nat.mod_lt _ (by norm_num))
        · exact hacc c hmem

lemma natChars_ne_w (n : ℕ) : ∀ c ∈ natChars n, c ≠ 'w' :=
  natDigitsAux_ne_w (n + 1) n [] (by intro c hc; cases hc)

lemma fmt4f_ne_w (s : ℚ) : ∀ c ∈ fmt4f s, c ≠ 'w' := by
  intro c hc
  simp only [fmt4f, List.mem_append, List.mem_cons] at hc
  rcases hc with (h1 | h2) | h3 | h5 | h6
  · by_cases hn : rheQ (s * 10000) < 0
    · rw [if_pos hn] at h1
      rw [List.mem_singleton] at h1
      subst h1; decide
    · rw [if_neg hn] at h1
      cases h1
  · exact natChars_ne_w _ c h2
  · subst h3; decide
  · have h7 := List.eq_of_mem_replicate h5
    subst h7; decide
  · exact natChars_ne_w _ c h6

lemma extract_of_findWeekId {tag w : List Char} (hnil : tag ≠ [])
    (hf : findWeekId tag = some w) (hs : pyStrip w = w) (hw : w ≠ []) :
    extract_week_id_from_tag tag = some w := by
  unfold extract_week_id_from_tag
  rw [if_neg hnil, hf]
  show (if pyStrip w = [] then none else some (pyStrip w)) = some w
  rw [hs, if_neg hw]

/-- Counterexample to claim C10 as stated: the week_id `2024-01-02` satisfies
every stated side condition (non-empty, no `;`, no surrounding whitespace),
yet with the tier string `aweek_id=EVIL` the regex finds the earlier
`week_id=` marker inside the tier field and extraction returns `EVIL`, not
the built week_id. -/
theorem tag_roundtrip_counterexample :
    ("2024-01-02".data ≠ ([] : List Char) ∧ (∀ c ∈ "2024-01-02".data, c ≠ ';') ∧
      pyStrip "2024-01-02".data = "2024-01-02".data) ∧
    extract_week_id_from_tag
        (build_order_tag "aweek_id=EVIL".data (1/2) "2024-01-02".data 3) =
      some "EVIL".data ∧
    some "EVIL".data ≠ some "2024-01-02".data := by
  refine ⟨⟨by decide, by decide, by decide⟩, ?_, by decide⟩
  have htag : build_order_tag "aweek_id=EVIL".data (1/2) "2024-01-02".data 3 =
      "tier=a".data ++ (markerChars ++ ("EVIL".data ++ (';' :: ("signal=".data ++
        (fmt4f (1/2) ++ (';' :: (markerChars ++ ("2024-01-02".data ++
          (';' :: ("scale_day=".data ++ natChars 3)))))))))) := by
    simp only [build_order_tag, List.append_assoc]
    rfl
  have hfind : findWeekId ("tier=a".data ++ (markerChars ++ ("EVIL".data ++
      (';' :: ("signal=".data ++ (fmt4f (1/2) ++ (';' :: (markerChars ++
        ("2024-01-02".data ++ (';' :: ("scale_day=".data ++ natChars 3))))))))))) =
      some "EVIL".data := by
    rw [findWeekId_append_noW "tier=a".data _ (by decide),
      findWeekId_marker _ (by
        rw [takeNonSemi_append_semi "EVIL".data _ (by decide)]
        decide),
      takeNonSemi_append_semi "EVIL".data _ (by decide)]
  apply extract_of_findWeekId
  · rw [htag]
    exact List.cons_ne_nil 't' _
  · rw [htag]
    exact hfind
  · decide
  · decide

/-- Claim C10 amended: for every signal strength, scale_day, every tier string
that does not contain `week_id` as a substring (all four tiers the engine uses
qualify), and every non-empty week_id containing no `;` and no leading or
trailing whitespace, extracting the week_id from the tag built by
`build_order_tag` returns exactly that week_id. -/
theorem tag_roundtrip (tier : List Char) (s : ℚ) (week_id : List Char) (d : ℕ)
    (htier : hasSubstr marker7 tier = false) (hne : week_id ≠ [])
    (hsemi : ∀ c ∈ week_id, c ≠ ';') (hstrip : pyStrip week_id = week_id) :
    extract_week_id_from_tag (build_order_tag tier s week_id d) = some week_id := by
  have htag : build_order_tag tier s week_id d =
      "tier=".data ++ (tier ++ (';' :: ("signal=".data ++ (fmt4f s ++
        (';' :: (markerChars ++ (week_id ++
          (';' :: ("scale_day=".data ++ natChars d)))))))))  := by
    simp only [build_order_tag, List.append_assoc]
    rfl
  have hfind : findWeekId ("tier=".data ++ (tier ++ (';' :: ("signal=".data ++
      (fmt4f s ++ (';' :: (markerChars ++ (week_id ++
        (';' :: ("scale_day=".data ++ natChars d)))))))))) = some week_id := by
    rw [findWeekId_append_noW "tier=".data _ (by decide),
      findWeekId_skip_clean tier _ htier,
      findWeekId_cons_ne _ (by decide : (';' : Char) ≠ 'w'),
      findWeekId_append_noW "signal=".data _ (by decide),
      findWeekId_append_noW (fmt4f s) _ (fmt4f_ne_w s),
      findWeekId_cons_ne _ (by decide : (';' : Char) ≠ 'w'),
      findWeekId_marker _ (by
        rw [takeNonSemi_append_semi week_id _ hsemi]
        exact hne),
      takeNonSemi_append_semi week_id _ hsemi]
  apply extract_of_findWeekId
  · rw [htag]
    exact List.cons_ne_nil 't' _
  · rw [htag]
    exact hfind
  · exact hstrip
  · exact hne

/-- Witness for C10 (amended) at the engine's own tier `strong`. -/
theorem tag_roundtrip_witness :
    (hasSubstr marker7 "strong".data = false ∧
      "2024-01-02".data ≠ ([] : List Char) ∧
      (∀ c ∈ "2024-01-02".data, c ≠ ';') ∧
      pyStrip "2024-01-02".data = "2024-01-02".data) ∧
    extract_week_id_from_tag
        (build_order_tag "strong".data (1/2) "2024-01-02".data 3) =
      some "2024-01-02".data :=
  ⟨⟨by decide, by decide, by decide, by decide⟩,
    tag_roundtrip _ _ _ _ (by decide) (by decide) (by decide) (by decide)⟩

/-! ## Association-list and keyed-map lemmas for the CreateTargets machine -/

lemma lookup_eq_some_mem {α : Type} : ∀ (l : List (Sym × α)) (s : Sym) (v : α),
    lookup l s = some v → (s, v) ∈ l := by
  intro l
  induction l with
  | nil => intro s v h; cases h
  | cons p rest ih =>
      obtain ⟨k, w⟩ := p
      intro s v h
      simp only [lookup] at h
      split at h
      · next hk =>
          injection h with hv
          subst hk
          subst hv
          exact List.mem_cons_self _ _
      · next hk => exact List.mem_cons_of_mem _ (ih _ _ h)

lemma lookup_setKey_self {α : Type} : ∀ (l : List (Sym × α)) (s : Sym) (v : α),
    lookup (setKey l s v) s = some v := by
  intro l
  induction l with
  | nil => intro s v; simp [setKey, lookup]
  | cons p rest ih =>
      obtain ⟨k, w⟩ := p
      intro s v
      simp only [setKey]
      split
      · next hk => simp [lookup, hk]
      · next hk =>
          simp only [lookup, if_neg hk]
          exact ih s v

lemma lookup_setKey_ne {α : Type} : ∀ (l : List (Sym × α)) (t s : Sym) (v : α), t ≠ s →
    lookup (setKey l t v) s = lookup l s := by
  intro l
  induction l with
  | nil => intro t s v ht; simp [setKey, lookup, ht]
  | cons p rest ih =>
      obtain ⟨k, w⟩ := p
      intro t s v ht
      simp only [setKey]
      split
      · next hk =>
          subst hk
          simp [lookup, ht]
      · next hk =>
          simp only [lookup]
          rw [ih t s v ht]

lemma lookup_delKey_ne {α : Type} : ∀ (l : List (Sym × α)) (t s : Sym), t ≠ s →
    lookup (delKey l t) s = lookup l s := by
  intro l
  induction l with
  | nil => intro t s ht; rfl
  | cons p rest ih =>
      obtain ⟨k, w⟩ := p
      intro t s ht
      simp only [delKey]
      split
      · next hk =>
          subst hk
          simp [lookup, ht]
      · next hk =>
          simp only [lookup]
          rw [ih t s ht]

lemma mem_keyedMap {β : Type} {g : Sym → Option β} {L : List Sym} {p : Sym × β}
    (hp : p ∈ keyedMap g L) : g p.1 = some p.2 ∧ p.1 ∈ L := by
  obtain ⟨t, htL, hmatch⟩ := List.mem_filterMap.mp hp
  cases hg : g t with
  | none => rw [hg] at hmatch; cases hmatch
  | some a =>
      rw [hg] at hmatch
      have hmatch' : some (t, a) = some p := hmatch
      injection hmatch' with hpa
      rw [← hpa]
      exact ⟨hg, htL⟩

lemma mem_keyedMap_of {β : Type} {g : Sym → Option β} {L : List Sym} {s : Sym} {a : β}
    (hL : s ∈ L) (hg : g s = some a) : (s, a) ∈ keyedMap g L := by
  apply List.mem_filterMap.mpr
  refine ⟨s, hL, ?_⟩
  rw [hg]

lemma keysOf_keyedMap_subset {β : Type} (g : Sym → Option β) (L : List Sym) :
    ∀ s ∈ keysOf (keyedMap g L), s ∈ L := by
  intro s hs
  obtain ⟨p, hp, rfl⟩ := List.mem_map.mp hs
  exact (mem_keyedMap hp).2

lemma keyedMap_cons_none {β : Type} {g : Sym → Option β} {t : Sym} (L : List Sym)
    (hg : g t = none) : keyedMap g (t :: L) = keyedMap g L := by
  unfold keyedMap
  rw [List.filterMap_cons, hg]

lemma keyedMap_cons_some {β : Type} {g : Sym → Option β} {t : Sym} {a : β} (L : List Sym)
    (hg : g t = some a) : keyedMap g (t :: L) = (t, a) :: keyedMap g L := by
  unfold keyedMap
  rw [List.filterMap_cons, hg]

lemma keysOf_keyedMap_nodup {β : Type} (g : Sym → Option β) :
    ∀ (L : List Sym), L.Nodup → (keysOf (keyedMap g L)).Nodup := by
  intro L
  induction L with
  | nil => intro _; simp [keyedMap, keysOf]
  | cons t L' ih =>
      intro hnd
      obtain ⟨hts, hnd'⟩ := List.nodup_cons.mp hnd
      cases hg : g t with
      | none =>
          rw [keyedMap_cons_none L' hg]
          exact ih hnd'
      | some a =>
          rw [keyedMap_cons_some L' hg]
          rw [show keysOf ((t, a) :: keyedMap g L') = t :: keysOf (keyedMap g L') from rfl]
          apply List.nodup_cons.mpr
          refine ⟨?_, ih hnd'⟩
          intro hmem
          exact hts (keysOf_keyedMap_subset g L' t hmem)

lemma lookup_keyedMap {β : Type} (g : Sym → Option β) :
    ∀ (L : List Sym), L.Nodup → ∀ s : Sym,
    lookup (keyedMap g L) s = if s ∈ L then g s else none := by
  intro L
  induction L with
  | nil => intro _ s; simp [keyedMap, lookup]
  | cons t L' ih =>
      intro hnd s
      obtain ⟨hts, hnd'⟩ := List.nodup_cons.mp hnd
      cases hg : g t with
      | none =>
          rw [keyedMap_cons_none L' hg, ih hnd' s]
          by_cases hst : s = t
          · subst hst
            rw [if_neg hts, if_pos (List.mem_cons_self _ _), hg]
          · by_cases hsL : s ∈ L'
            · rw [if_pos hsL, if_pos (List.mem_cons_of_mem _ hsL)]
            · rw [if_neg hsL, if_neg (by
                intro h
                rcases List.mem_cons.mp h with h1 | h2
                · exact hst h1
                · exact hsL h2)]
      | some a =>
          rw [keyedMap_cons_some L' hg]
          simp only [lookup]
          by_cases hst : t = s
          · subst hst
            rw [if_pos rfl, if_pos (List.mem_cons_self _ _), hg]
          · rw [if_neg hst, ih hnd' s]
            by_cases hsL : s ∈ L'
            · rw [if_pos hsL, if_pos (List.mem_cons_of_mem _ hsL)]
            · rw [if_neg hsL, if_neg (by
                intro h
                rcases List.mem_cons.mp h with h1 | h2
                · exact hst h1.symm
                · exact hsL h2)]

lemma classifySymbols_eq (n o a : List (Sym × ℝ)) (db : ℝ) :
    classifySymbols n o a db = keyedMap (fun s =>
      classifyOne ((lookup n s).isSome) ((lookup o s).isSome)
        ((lookup n s).getD 0) ((lookup o s).getD 0) ((lookup a s).getD 0) db)
      ((keysOf n ++ keysOf o ++ keysOf a).dedup) := by
  unfold classifySymbols keyedMap
  congr 1
  funext t
  cases h : classifyOne ((lookup n t).isSome) ((lookup o t).isSome)
      ((lookup n t).getD 0) ((lookup o t).getD 0) ((lookup a t).getD 0) db with
  | none => simp [h]
  | some b => simp [h]

/-! ## Scale-state and emission lemmas -/

lemma lookup_updateScaleStates_absent : ∀ (cls : List (Sym × Action))
    (st0 : List (Sym × ScaleState)) (s : Sym), s ∉ keysOf cls →
    lookup (updateScaleStates st0 cls) s = lookup st0 s := by
  intro cls
  induction cls with
  | nil => intro st0 s _; rfl
  | cons p cls' ih =>
      obtain ⟨t, act⟩ := p
      intro st0 s hs
      have hts : t ≠ s := by
        rintro rfl
        exact hs (List.mem_cons_self _ _)
      have hs' : s ∉ keysOf cls' := fun h => hs (List.mem_cons_of_mem _ h)
      cases act with
      | NEW_ENTRY =>
          rw [show updateScaleStates st0 ((t, Action.NEW_ENTRY) :: cls') =
            updateScaleStates (setKey st0 t ⟨0, true⟩) cls' from rfl]
          rw [ih _ s hs', lookup_setKey_ne _ t s _ hts]
      | FLIP =>
          rw [show updateScaleStates st0 ((t, Action.FLIP) :: cls') =
            updateScaleStates (setKey st0 t ⟨0, true⟩) cls' from rfl]
          rw [ih _ s hs', lookup_setKey_ne _ t s _ hts]
      | RESIZE =>
          rw [show updateScaleStates st0 ((t, Action.RESIZE) :: cls') =
            updateScaleStates (setKey st0 t ⟨0, false⟩) cls' from rfl]
          rw [ih _ s hs', lookup_setKey_ne _ t s _ hts]
      | HOLD =>
          rw [show updateScaleStates st0 ((t, Action.HOLD) :: cls') =
            updateScaleStates (setKey st0 t ⟨0, false⟩) cls' from rfl]
          rw [ih _ s hs', lookup_setKey_ne _ t s _ hts]
      | EXIT =>
          rw [show updateScaleStates st0 ((t, Action.EXIT) :: cls') =
            updateScaleStates (delKey st0 t) cls' from rfl]
          rw [ih _ s hs', lookup_delKey_ne _ t s hts]

lemma lookup_updateScaleStates_mem : ∀ (cls : List (Sym × Action))
    (st0 : List (Sym × ScaleState)) (s : Sym) (a : Action),
    (keysOf cls).Nodup → (s, a) ∈ cls → a ≠ Action.EXIT →
    lookup (updateScaleStates st0 cls) s =
      some ⟨0, match a with
        | Action.NEW_ENTRY => true
        | Action.FLIP => true
        | _ => false⟩ := by
  intro cls
  induction cls with
  | nil => intro st0 s a _ hmem _; cases hmem
  | cons p cls' ih =>
      obtain ⟨t, act⟩ := p
      intro st0 s a hnd hmem hne
      obtain ⟨hts, hnd'⟩ := List.nodup_cons.mp hnd
      rcases List.mem_cons.mp hmem with heq | hmem'
      · have h1 : s = t := congrArg Prod.fst heq
        have h2 : a = act := congrArg Prod.snd heq
        subst h1
        subst h2
        cases a with
        | NEW_ENTRY =>
            rw [show updateScaleStates st0 ((s, Action.NEW_ENTRY) :: cls') =
              updateScaleStates (setKey st0 s ⟨0, true⟩) cls' from rfl]
            rw [lookup_updateScaleStates_absent cls' _ s hts, lookup_setKey_self]
        | FLIP =>
            rw [show updateScaleStates st0 ((s, Action.FLIP) :: cls') =
              updateScaleStates (setKey st0 s ⟨0, true⟩) cls' from rfl]
            rw [lookup_updateScaleStates_absent cls' _ s hts, lookup_setKey_self]
        | RESIZE =>
            rw [show updateScaleStates st0 ((s, Action.RESIZE) :: cls') =
              updateScaleStates (setKey st0 s ⟨0, false⟩) cls' from rfl]
            rw [lookup_updateScaleStates_absent cls' _ s hts, lookup_setKey_self]
        | HOLD =>
            rw [show updateScaleStates st0 ((s, Action.HOLD) :: cls') =
              updateScaleStates (setKey st0 s ⟨0, false⟩) cls' from rfl]
            rw [lookup_updateScaleStates_absent cls' _ s hts, lookup_setKey_self]
        | EXIT => exact absurd rfl hne
      · have hskeys : s ∈ keysOf cls' := List.mem_map.mpr ⟨(s, a), hmem', rfl⟩
        have hts' : t ≠ s := fun h => hts (h ▸ hskeys)
        cases act with
        | NEW_ENTRY =>
            rw [show updateScaleStates st0 ((t, Action.NEW_ENTRY) :: cls') =
              updateScaleStates (setKey st0 t ⟨0, true⟩) cls' from rfl]
            exact ih _ s a hnd' hmem' hne
        | FLIP =>
            rw [show updateScaleStates st0 ((t, Action.FLIP) :: cls') =
              updateScaleStates (setKey st0 t ⟨0, true⟩) cls' from rfl]
            exact ih _ s a hnd' hmem' hne
        | RESIZE =>
            rw [show updateScaleStates st0 ((t, Action.RESIZE) :: cls') =
              updateScaleStates (setKey st0 t ⟨0, false⟩) cls' from rfl]
            exact ih _ s a hnd' hmem' hne
        | HOLD =>
            rw [show updateScaleStates st0 ((t, Action.HOLD) :: cls') =
              updateScaleStates (setKey st0 t ⟨0, false⟩) cls' from rfl]
            exact ih _ s a hnd' hmem' hne
        | EXIT =>
            rw [show updateScaleStates st0 ((t, Action.EXIT) :: cls') =
              updateScaleStates (delKey st0 t) cls' from rfl]
            exact ih _ s a hnd' hmem' hne

lemma lookup_advance_scaling (cfg : RiskCfg) : ∀ (l : List (Sym × ScaleState)) (s : Sym),
    lookup l s = some ⟨0, true⟩ → 2 ≤ effSd cfg →
    lookup (advanceScaleStates cfg l) s = some ⟨1, true⟩ := by
  intro l
  induction l with
  | nil => intro s h _; cases h
  | cons p rest ih =>
      obtain ⟨t, st⟩ := p
      intro s h hsd
      simp only [lookup] at h
      by_cases hts : t = s
      · rw [if_pos hts] at h
        injection h with hst
        subst hst
        have hlt : 0 < effSd cfg - 1 := by omega
        rw [show advanceScaleStates cfg ((t, (⟨0, true⟩ : ScaleState)) :: rest) =
          (if (⟨0, true⟩ : ScaleState).is_scaling then
            (if (0 : ℕ) < effSd cfg - 1 then (t, ⟨0 + 1, true⟩)
              else (t, ⟨0, false⟩))
            else (t, ⟨0, true⟩)) :: advanceScaleStates cfg rest from rfl]
        rw [if_pos (show ((⟨0, true⟩ : ScaleState).is_scaling = true) from rfl), if_pos hlt]
        simp only [lookup, if_pos hts]
      · rw [if_neg hts] at h
        have ih' := ih s h hsd
        rw [show advanceScaleStates cfg ((t, st) :: rest) =
          (if st.is_scaling then
            (if st.scale_day < effSd cfg - 1 then (t, ⟨st.scale_day + 1, true⟩)
              else (t, ⟨st.scale_day, false⟩))
            else (t, st)) :: advanceScaleStates cfg rest from rfl]
        by_cases hscal : st.is_scaling = true
        · by_cases hday : st.scale_day < effSd cfg - 1
          · rw [if_pos hscal, if_pos hday]
            simp only [lookup, if_neg hts]
            exact ih'
          · rw [if_pos hscal, if_neg hday]
            simp only [lookup, if_neg hts]
            exact ih'
        · rw [if_neg hscal]
          simp only [lookup, if_neg hts]
          exact ih'

lemma mem_exitFlipTargets {cls : List (Sym × Action)} {p : Sym × ℝ}
    (hp : p ∈ exitFlipTargets cls) :
    p.2 = 0 ∧ ((p.1, Action.EXIT) ∈ cls ∨ (p.1, Action.FLIP) ∈ cls) := by
  obtain ⟨q, hq, hmatch⟩ := List.mem_filterMap.mp hp
  obtain ⟨t, act⟩ := q
  cases act with
  | EXIT =>
      have hm : some (t, (0 : ℝ)) = some p := hmatch
      injection hm with hm2
      rw [← hm2]
      exact ⟨rfl, Or.inl hq⟩
  | FLIP =>
      have hm : some (t, (0 : ℝ)) = some p := hmatch
      injection hm with hm2
      rw [← hm2]
      exact ⟨rfl, Or.inr hq⟩
  | NEW_ENTRY =>
      have hm : (none : Option (Sym × ℝ)) = some p := hmatch
      cases hm
  | RESIZE =>
      have hm : (none : Option (Sym × ℝ)) = some p := hmatch
      cases hm
  | HOLD =>
      have hm : (none : Option (Sym × ℝ)) = some p := hmatch
      cases hm

lemma filter_exitFlip_nil {cls : List (Sym × Action)} {s : Sym}
    (hs : s ∉ keysOf cls) :
    (exitFlipTargets cls).filter (fun p => decide (p.1 = s)) = [] := by
  rw [List.filter_eq_nil_iff]
  intro p hp
  have hmem : p.1 ∈ keysOf cls := by
    rcases (mem_exitFlipTargets hp).2 with h | h
    · exact List.mem_map.mpr ⟨_, h, rfl⟩
    · exact List.mem_map.mpr ⟨_, h, rfl⟩
  rw [decide_eq_true_eq]
  rintro rfl
  exact hs hmem

lemma filter_exitFlip_flip : ∀ {cls : List (Sym × Action)} {s : Sym},
    (keysOf cls).Nodup → (s, Action.FLIP) ∈ cls →
    (exitFlipTargets cls).filter (fun p => decide (p.1 = s)) = [(s, 0)] := by
  intro cls
  induction cls with
  | nil => intro s _ hmem; cases hmem
  | cons q cls' ih =>
      obtain ⟨t, act⟩ := q
      intro s hnd hmem
      obtain ⟨hts, hnd'⟩ := List.nodup_cons.mp hnd
      rcases List.mem_cons.mp hmem with heq | hmem'
      · have h1 : s = t := congrArg Prod.fst heq
        have h2 : Action.FLIP = act := (congrArg Prod.snd heq :)
        subst h1
        cases h2
        rw [show exitFlipTargets ((s, Action.FLIP) :: cls') =
          (s, (0 : ℝ)) :: exitFlipTargets cls' from rfl]
        rw [List.filter_cons_of_pos (by simp)]
        rw [filter_exitFlip_nil hts]
      · have hskeys : s ∈ keysOf cls' := List.mem_map.mpr ⟨_, hmem', rfl⟩
        have hts' : t ≠ s := fun h => hts (h ▸ hskeys)
        cases act with
        | EXIT =>
            rw [show exitFlipTargets ((t, Action.EXIT) :: cls') =
              (t, (0 : ℝ)) :: exitFlipTargets cls' from rfl]
            rw [List.filter_cons_of_neg (by simp [hts'])]
            exact ih hnd' hmem'
        | FLIP =>
            rw [show exitFlipTargets ((t, Action.FLIP) :: cls') =
              (t, (0 : ℝ)) :: exitFlipTargets cls' from rfl]
            rw [List.filter_cons_of_neg (by simp [hts'])]
            exact ih hnd' hmem'
        | NEW_ENTRY =>
            rw [show exitFlipTargets ((t, Action.NEW_ENTRY) :: cls') =
              exitFlipTargets cls' from rfl]
            exact ih hnd' hmem'
        | RESIZE =>
            rw [show exitFlipTargets ((t, Action.RESIZE) :: cls') =
              exitFlipTargets cls' from rfl]
            exact ih hnd' hmem'
        | HOLD =>
            rw [show exitFlipTargets ((t, Action.HOLD) :: cls') =
              exitFlipTargets cls' from rfl]
            exact ih hnd' hmem'

lemma build_scaling_schedule_length (sd : ℕ) (flf : ℝ) :
    (build_scaling_schedule sd flf).length = max 1 sd := by
  simp only [build_scaling_schedule]
  by_cases h : max 1 sd ≤ 1
  · rw [if_pos h]
    have h1 : max 1 sd = 1 := le_antisymm h (le_max_left _ _)
    simp [h1]
  · rw [if_neg h]
    simp only [List.length_append, List.length_dropLast, List.length_map,
      List.length_range, List.length_cons, List.length_nil]
    omega

lemma scheduleFor_length (cfg : RiskCfg) (sig : ℝ) :
    (scheduleFor cfg sig).length = effSd cfg := by
  have h1 : max 1 (effSd cfg) = effSd cfg := max_eq_right (le_max_left _ _)
  unfold scheduleFor
  split
  · rw [build_scaling_schedule_length, h1]
  · split <;> rw [build_scaling_schedule_length, h1]

/-! ## Degenerate signal sets (claim C2) -/

lemma classifyOne_exit (new_w old_w actual_w db : ℝ) :
    classifyOne false true new_w old_w actual_w db = some Action.EXIT := by
  unfold classifyOne
  rw [if_neg (by simp), if_neg (by simp), if_pos ⟨rfl, Or.inl rfl⟩]

lemma createTargets_degenerate_core (cfg : RiskCfg) (st : PCMState)
    (insights : List Insight) (actual : List (Sym × ℝ))
    (hins : insights ≠ [])
    (hact : insights.filter (fun i => i.active) ≠ [])
    (hreb : (st.is_rebalance_day ||
      counterRebalance cfg st.trading_days_since_rebalance) = true)
    (hdeg : grossOf (rawWeights (latestBySymbol
      (insights.filter (fun i => i.active)))) < eps8) :
    (createTargets cfg st insights actual).1 =
      exitFlipTargets (classifySymbols [] st.previous_weekly_targets actual
        cfg.dead_band) ∧
    (createTargets cfg st insights actual).2.weekly_targets = [] ∧
    (createTargets cfg st insights actual).2.signal_strengths = [] ∧
    (createTargets cfg st insights actual).2.previous_weekly_targets = [] := by
  have hwk : computeWeeklyTargets cfg (insights.filter (fun i => i.active))
      st.rolling_returns = ([], []) := by
    simp only [computeWeeklyTargets]
    rw [if_pos hdeg]
  simp only [createTargets]
  rw [if_neg hins, if_neg hact, if_pos hreb, hwk]
  refine ⟨?_, rfl, rfl, rfl⟩
  show exitFlipTargets (classifySymbols [] st.previous_weekly_targets actual
      cfg.dead_band) ++ ([] : List (Sym × ℝ)) = _
  exact List.append_nil _

/-- Claim C2 amended: if on a rebalance day the total absolute raw signal
weight is below `1e-8`, the engine computes an empty weekly-target map — so
no scale-in, resize or entry targets are emitted — but it does NOT leave the
previous cycle's targets in effect: symbols carried in the previous targets
or current holdings are classified EXIT and receive immediate 0%-weight exit
instructions, and the stored weekly targets, signal strengths and
previous-cycle targets are all replaced by the empty map. -/
theorem degenerate_signals_emit_exits (cfg : RiskCfg) (st : PCMState)
    (insights : List Insight) (actual : List (Sym × ℝ))
    (hins : insights ≠ [])
    (hact : insights.filter (fun i => i.active) ≠ [])
    (hreb : (st.is_rebalance_day ||
      counterRebalance cfg st.trading_days_since_rebalance) = true)
    (hdeg : grossOf (rawWeights (latestBySymbol
      (insights.filter (fun i => i.active)))) < eps8) :
    (createTargets cfg st insights actual).1 =
      exitFlipTargets (classifySymbols [] st.previous_weekly_targets actual
        cfg.dead_band) ∧
    (createTargets cfg st insights actual).2.weekly_targets = [] ∧
    (createTargets cfg st insights actual).2.signal_strengths = [] ∧
    (createTargets cfg st insights actual).2.previous_weekly_targets = [] :=
  createTargets_degenerate_core cfg st insights actual hins hact hreb hdeg

/-- Counterexample to claim C2 as stated: on a degenerate rebalance day
(total absolute raw weight `0 < 1e-8`) with a previous-cycle target and a
holding for symbol 0, the engine does not "emit no target instructions": it
emits a 0%-weight exit instruction for symbol 0, and the stored previous
targets are cleared instead of remaining in effect. -/
theorem degenerate_signals_counterexample :
    grossOf (rawWeights (latestBySymbol
      (([⟨0, true, 0, none, true⟩] : List Insight).filter (fun i => i.active)))) < eps8 ∧
    (createTargets ⟨1/10, 3/2, 1/2, 1/10, 5, 5, 20, 3/200⟩
        ⟨[(0, 1/10)], [(0, 1/10)], [], none, false, [(0, 1/10)], []⟩
        [⟨0, true, 0, none, true⟩] [(0, 1/10)]).1 = [(0, 0)] ∧
    (createTargets ⟨1/10, 3/2, 1/2, 1/10, 5, 5, 20, 3/200⟩
        ⟨[(0, 1/10)], [(0, 1/10)], [], none, false, [(0, 1/10)], []⟩
        [⟨0, true, 0, none, true⟩] [(0, 1/10)]).2.previous_weekly_targets = [] := by
  have hfil : (([⟨0, true, 0, none, true⟩] : List Insight).filter (fun i => i.active)) =
      [⟨0, true, 0, none, true⟩] := rfl
  have hdeg : grossOf (rawWeights (latestBySymbol
      (([⟨0, true, 0, none, true⟩] : List Insight).filter (fun i => i.active)))) < eps8 := by
    rw [hfil]
    rw [show latestBySymbol [(⟨0, true, 0, none, true⟩ : Insight)] =
      [((0 : Sym), (⟨0, true, 0, none, true⟩ : Insight))] from rfl]
    rw [show rawWeights [((0 : Sym), (⟨0, true, 0, none, true⟩ : Insight))] =
      [((0 : Sym), (1 : ℝ) * 0)] from rfl]
    norm_num [grossOf, eps8]
  obtain ⟨h1, _, _, h4⟩ := createTargets_degenerate_core
    ⟨1/10, 3/2, 1/2, 1/10, 5, 5, 20, 3/200⟩
    ⟨[(0, 1/10)], [(0, 1/10)], [], none, false, [(0, 1/10)], []⟩
    [⟨0, true, 0, none, true⟩] [(0, 1/10)]
    (List.cons_ne_nil _ _)
    (by rw [hfil]; exact List.cons_ne_nil _ _)
    rfl hdeg
  refine ⟨hdeg, ?_, h4⟩
  rw [h1]
  have hcls : classifySymbols []
      (⟨[(0, 1/10)], [(0, 1/10)], [], none, false, [(0, 1/10)], []⟩ :
        PCMState).previous_weekly_targets
      [(0, 1/10)]
      (⟨1/10, 3/2, 1/2, 1/10, 5, 5, 20, 3/200⟩ : RiskCfg).dead_band =
      [(0, Action.EXIT)] := by
    show classifySymbols [] [((0 : Sym), (1 : ℝ)/10)] [((0 : Sym), (1 : ℝ)/10)]
      ((3 : ℝ)/200) = [(0, Action.EXIT)]
    rw [classifySymbols_eq]
    rw [show ((keysOf ([] : List (Sym × ℝ)) ++ keysOf [((0 : Sym), (1 : ℝ)/10)] ++
      keysOf [((0 : Sym), (1 : ℝ)/10)]).dedup) = [0] from rfl]
    rw [keyedMap_cons_some ([] : List Sym)
      (show _ = some Action.EXIT from classifyOne_exit 0 ((1 : ℝ)/10) ((1 : ℝ)/10)
        ((3 : ℝ)/200))]
    rfl
  rw [hcls]
  rfl

/-- Witness for C2 (amended) at the counterexample's inputs. -/
theorem degenerate_signals_emit_exits_witness :
    (([⟨0, true, 0, none, true⟩] : List Insight) ≠ [] ∧
      (([⟨0, true, 0, none, true⟩] : List Insight).filter (fun i => i.active)) ≠ [] ∧
      ((false : Bool) ||
        counterRebalance ⟨1/10, 3/2, 1/2, 1/10, 5, 5, 20, 3/200⟩ none) = true ∧
      grossOf (rawWeights (latestBySymbol
        (([⟨0, true, 0, none, true⟩] : List Insight).filter (fun i => i.active)))) < eps8) ∧
    ((createTargets ⟨1/10, 3/2, 1/2, 1/10, 5, 5, 20, 3/200⟩
        ⟨[(0, 1/10)], [(0, 1/10)], [], none, false, [(0, 1/10)], []⟩
        [⟨0, true, 0, none, true⟩] [(0, 1/10)]).1 =
      exitFlipTargets (classifySymbols []
        (⟨[(0, 1/10)], [(0, 1/10)], [], none, false, [(0, 1/10)], []⟩ :
          PCMState).previous_weekly_targets [(0, 1/10)]
        (⟨1/10, 3/2, 1/2, 1/10, 5, 5, 20, 3/200⟩ : RiskCfg).dead_band) ∧
      (createTargets ⟨1/10, 3/2, 1/2, 1/10, 5, 5, 20, 3/200⟩
        ⟨[(0, 1/10)], [(0, 1/10)], [], none, false, [(0, 1/10)], []⟩
        [⟨0, true, 0, none, true⟩] [(0, 1/10)]).2.weekly_targets = [] ∧
      (createTargets ⟨1/10, 3/2, 1/2, 1/10, 5, 5, 20, 3/200⟩
        ⟨[(0, 1/10)], [(0, 1/10)], [], none, false, [(0, 1/10)], []⟩
        [⟨0, true, 0, none, true⟩] [(0, 1/10)]).2.signal_strengths = [] ∧
      (createTargets ⟨1/10, 3/2, 1/2, 1/10, 5, 5, 20, 3/200⟩
        ⟨[(0, 1/10)], [(0, 1/10)], [], none, false, [(0, 1/10)], []⟩
        [⟨0, true, 0, none, true⟩] [(0, 1/10)]).2.previous_weekly_targets = []) := by
  have hfil : (([⟨0, true, 0, none, true⟩] : List Insight).filter (fun i => i.active)) =
      [⟨0, true, 0, none, true⟩] := rfl
  have hdeg : grossOf (rawWeights (latestBySymbol
      (([⟨0, true, 0, none, true⟩] : List Insight).filter (fun i => i.active)))) < eps8 := by
    rw [hfil]
    rw [show latestBySymbol [(⟨0, true, 0, none, true⟩ : Insight)] =
      [((0 : Sym), (⟨0, true, 0, none, true⟩ : Insight))] from rfl]
    rw [show rawWeights [((0 : Sym), (⟨0, true, 0, none, true⟩ : Insight))] =
      [((0 : Sym), (1 : ℝ) * 0)] from rfl]
    norm_num [grossOf, eps8]
  exact ⟨⟨List.cons_ne_nil _ _, by rw [hfil]; exact List.cons_ne_nil _ _, rfl, hdeg⟩,
    degenerate_signals_emit_exits
      ⟨1/10, 3/2, 1/2, 1/10, 5, 5, 20, 3/200⟩
      ⟨[(0, 1/10)], [(0, 1/10)], [], none, false, [(0, 1/10)], []⟩
      [⟨0, true, 0, none, true⟩] [(0, 1/10)]
      (List.cons_ne_nil _ _)
      (by rw [hfil]; exact List.cons_ne_nil _ _)
      rfl hdeg⟩

/-! ## HOLD symbols (claim C8) -/

lemma keysOf_append {α : Type} (l1 l2 : List (Sym × α)) :
    keysOf (l1 ++ l2) = keysOf l1 ++ keysOf l2 := List.map_append _ _ _

lemma emitOne_key {cfg : RiskCfg} {strengths : List (Sym × ℝ)}
    {states : List (Sym × ScaleState)} {is_reb : Bool} {flips : List Sym}
    {cls : List (Sym × Action)} {q p : Sym × ℝ}
    (h : emitOne cfg strengths states is_reb flips cls q = some p) : p.1 = q.1 := by
  simp only [emitOne] at h
  split at h
  · cases h
  · split at h
    · injection h with h'
      rw [← h']
    · split at h
      · split at h
        · injection h with h'
          rw [← h']
        · cases h
      · cases h

lemma emitOne_not_scaling_not_resize {cfg : RiskCfg} {strengths : List (Sym × ℝ)}
    {states : List (Sym × ScaleState)} {flips : List Sym}
    {cls : List (Sym × Action)} {q : Sym × ℝ}
    (hstate : ((lookup states q.1).getD ⟨0, false⟩).is_scaling = false)
    (hcls : lookup cls q.1 ≠ some Action.RESIZE) :
    emitOne cfg strengths states true flips cls q = none := by
  simp only [emitOne]
  split
  · rfl
  · simp [hstate, hcls]

/-- Claim C8: on every rebalance day, a symbol classified HOLD on that day
never appears in the emitted target set, and its scale state is reset to the
non-scaling steady state (scale_day 0, is_scaling false). -/
theorem hold_not_emitted (cfg : RiskCfg) (st : PCMState) (insights : List Insight)
    (actual : List (Sym × ℝ)) (s : Sym)
    (hins : insights ≠ [])
    (hact : insights.filter (fun i => i.active) ≠ [])
    (hreb : (st.is_rebalance_day ||
      counterRebalance cfg st.trading_days_since_rebalance) = true)
    (hcls0 : lookup (classifySymbols
        (computeWeeklyTargets cfg (insights.filter (fun i => i.active))
          st.rolling_returns).1
        st.previous_weekly_targets actual cfg.dead_band) s = some Action.HOLD) :
    s ∉ keysOf (createTargets cfg st insights actual).1 ∧
    lookup (createTargets cfg st insights actual).2.symbol_scale_state s =
      some ⟨0, false⟩ := by
  have hcls := hcls0
  rw [classifySymbols_eq] at hcls
  rw [lookup_keyedMap _ _ (List.nodup_dedup _) s] at hcls
  by_cases hmem : s ∈ ((keysOf (computeWeeklyTargets cfg
      (insights.filter (fun i => i.active)) st.rolling_returns).1 ++
      keysOf st.previous_weekly_targets ++ keysOf actual).dedup)
  swap
  · rw [if_neg hmem] at hcls
    cases hcls
  rw [if_pos hmem] at hcls
  have hmemcls : (s, Action.HOLD) ∈ classifySymbols
      (computeWeeklyTargets cfg (insights.filter (fun i => i.active))
        st.rolling_returns).1
      st.previous_weekly_targets actual cfg.dead_band := by
    rw [classifySymbols_eq]
    exact mem_keyedMap_of hmem hcls
  have hndcls : (keysOf (classifySymbols
      (computeWeeklyTargets cfg (insights.filter (fun i => i.active))
        st.rolling_returns).1
      st.previous_weekly_targets actual cfg.dead_band)).Nodup := by
    rw [classifySymbols_eq]
    exact keysOf_keyedMap_nodup _ _ (List.nodup_dedup _)
  have hval : ∀ a : Action, (s, a) ∈ classifySymbols
      (computeWeeklyTargets cfg (insights.filter (fun i => i.active))
        st.rolling_returns).1
      st.previous_weekly_targets actual cfg.dead_band → a = Action.HOLD := by
    intro a ha
    rw [classifySymbols_eq] at ha
    have h1 := (mem_keyedMap ha).1
    exact Option.some.inj (h1.symm.trans hcls)
  have hstate : lookup (updateScaleStates st.symbol_scale_state
      (classifySymbols
        (computeWeeklyTargets cfg (insights.filter (fun i => i.active))
          st.rolling_returns).1
        st.previous_weekly_targets actual cfg.dead_band)) s = some ⟨0, false⟩ := by
    have h := lookup_updateScaleStates_mem _ st.symbol_scale_state s Action.HOLD
      hndcls hmemcls (by intro hc; cases hc)
    exact h
  simp only [createTargets]
  rw [if_neg hins, if_neg hact, if_pos hreb]
  refine ⟨?_, hstate⟩
  intro hkey
  rw [keysOf_append] at hkey
  rcases List.mem_append.mp hkey with hA | hB
  · obtain ⟨p, hpA, hps⟩ := List.mem_map.mp hA
    obtain ⟨-, hpm⟩ := mem_exitFlipTargets hpA
    rcases hpm with h | h
    · rw [hps] at h
      exact absurd (hval _ h) (by intro hx; cases hx)
    · rw [hps] at h
      exact absurd (hval _ h) (by intro hx; cases hx)
  · obtain ⟨p, hpB, hps⟩ := List.mem_map.mp hB
    obtain ⟨q, hq, hmatch⟩ := List.mem_filterMap.mp hpB
    have hkeyq : q.1 = s := by rw [← emitOne_key hmatch, hps]
    have hnone : emitOne cfg
        (computeWeeklyTargets cfg (insights.filter (fun i => i.active))
          st.rolling_returns).2
        (updateScaleStates st.symbol_scale_state
          (classifySymbols
            (computeWeeklyTargets cfg (insights.filter (fun i => i.active))
              st.rolling_returns).1
            st.previous_weekly_targets actual cfg.dead_band))
        true
        (flipSymbols (classifySymbols
          (computeWeeklyTargets cfg (insights.filter (fun i => i.active))
            st.rolling_returns).1
          st.previous_weekly_targets actual cfg.dead_band))
        (classifySymbols
          (computeWeeklyTargets cfg (insights.filter (fun i => i.active))
            st.rolling_returns).1
          st.previous_weekly_targets actual cfg.dead_band) q = none := by
      apply emitOne_not_scaling_not_resize
      · rw [hkeyq, hstate]
        rfl
      · rw [hkeyq, hcls0]
        intro hx
        injection hx with hx2
        cases hx2
    rw [hnone] at hmatch
    cases hmatch

/-- Witness for C8: symbol 0 has a previous target of weight 1, a new
pipeline target of weight 1 and an actual holding of weight 1 (dead band
0.015), so it is classified HOLD; it is absent from the day's emitted targets
and its scale state is reset to the non-scaling steady state. -/
theorem hold_not_emitted_witness :
    (([⟨0, true, 1, none, true⟩] : List Insight) ≠ [] ∧
      (([⟨0, true, 1, none, true⟩] : List Insight).filter (fun i => i.active)) ≠ [] ∧
      (((⟨[(0, 1)], [(0, 1)], [], none, false, [(0, 1)], []⟩ :
          PCMState).is_rebalance_day ||
        counterRebalance ⟨1/10, 3/2, 1, 1, 5, 5, 20, 3/200⟩
          (⟨[(0, 1)], [(0, 1)], [], none, false, [(0, 1)], []⟩ :
            PCMState).trading_days_since_rebalance) = true) ∧
      lookup (classifySymbols
        (computeWeeklyTargets ⟨1/10, 3/2, 1, 1, 5, 5, 20, 3/200⟩
          (([⟨0, true, 1, none, true⟩] : List Insight).filter (fun i => i.active))
          (⟨[(0, 1)], [(0, 1)], [], none, false, [(0, 1)], []⟩ :
            PCMState).rolling_returns).1
        (⟨[(0, 1)], [(0, 1)], [], none, false, [(0, 1)], []⟩ :
          PCMState).previous_weekly_targets
        [((0 : Sym), (1 : ℝ))]
        (⟨1/10, 3/2, 1, 1, 5, 5, 20, 3/200⟩ : RiskCfg).dead_band) 0 =
        some Action.HOLD) ∧
    ((0 : Sym) ∉ keysOf (createTargets ⟨1/10, 3/2, 1, 1, 5, 5, 20, 3/200⟩
        ⟨[(0, 1)], [(0, 1)], [], none, false, [(0, 1)], []⟩
        [⟨0, true, 1, none, true⟩] [((0 : Sym), (1 : ℝ))]).1 ∧
      lookup (createTargets ⟨1/10, 3/2, 1, 1, 5, 5, 20, 3/200⟩
        ⟨[(0, 1)], [(0, 1)], [], none, false, [(0, 1)], []⟩
        [⟨0, true, 1, none, true⟩]
        [((0 : Sym), (1 : ℝ))]).2.symbol_scale_state 0 = some ⟨0, false⟩) := by
  have hfil : (([⟨0, true, 1, none, true⟩] : List Insight).filter
      (fun i => i.active)) = [⟨0, true, 1, none, true⟩] := rfl
  have hgross : grossOf [((0 : Sym), (1 : ℝ) * 1)] = 1 := by
    norm_num [grossOf]
  have hnorm : normalizeRaw [((0 : Sym), (1 : ℝ) * 1)] = [((0 : Sym), (1 : ℝ))] := by
    simp only [normalizeRaw, List.map_cons, List.map_nil]
    rw [hgross]
    norm_num
  have hvol : estimate_portfolio_vol [((0 : Sym), (1 : ℝ))]
      ([] : List (Sym × List ℝ)) 20 = none :=
    estimate_portfolio_vol_none (List.mem_singleton.mpr rfl)
      (by norm_num [eps8]) (fun l h => Option.noConfusion h)
  have hpn : apply_per_name_cap [((0 : Sym), (1 : ℝ))] 1 = [((0 : Sym), (1 : ℝ))] := by
    simp only [apply_per_name_cap, List.map_cons, List.map_nil]
    norm_num
  have hgrossOne : grossOf [((0 : Sym), (1 : ℝ))] = 1 := by norm_num [grossOf]
  have hgc : apply_gross_cap [((0 : Sym), (1 : ℝ))] (3 / 2) =
      [((0 : Sym), (1 : ℝ))] := by
    unfold apply_gross_cap
    rw [if_neg (by rw [hgrossOne]; norm_num)]
  have hnet : netOf [((0 : Sym), (1 : ℝ))] = 1 := by norm_num [netOf]
  have hnc : apply_net_cap [((0 : Sym), (1 : ℝ))] 1 = [((0 : Sym), (1 : ℝ))] := by
    unfold apply_net_cap
    rw [if_neg (by rw [hnet]; norm_num)]
  have hwk : computeWeeklyTargets ⟨1/10, 3/2, 1, 1, 5, 5, 20, 3/200⟩
      [⟨0, true, 1, none, true⟩] ([] : List (Sym × List ℝ)) =
      ([((0 : Sym), (1 : ℝ))], [((0 : Sym), (1 : ℝ))]) := by
    simp only [computeWeeklyTargets]
    rw [show latestBySymbol [(⟨0, true, 1, none, true⟩ : Insight)] =
      [((0 : Sym), (⟨0, true, 1, none, true⟩ : Insight))] from rfl]
    rw [show rawWeights [((0 : Sym), (⟨0, true, 1, none, true⟩ : Insight))] =
      [((0 : Sym), (1 : ℝ) * 1)] from rfl]
    rw [if_neg (by rw [hgross]; norm_num [eps8])]
    rw [hnorm]
    rw [hvol]
    rw [show volScaleFactor (⟨1/10, 3/2, 1, 1, 5, 5, 20, 3/200⟩ : RiskCfg) none = 1
      from rfl, scaleWeights_one]
    rw [show applyCaps (⟨1/10, 3/2, 1, 1, 5, 5, 20, 3/200⟩ : RiskCfg)
        [((0 : Sym), (1 : ℝ))] =
      apply_net_cap (apply_gross_cap (apply_per_name_cap [((0 : Sym), (1 : ℝ))] 1)
        (3 / 2)) 1 from rfl]
    rw [hpn, hgc, hnc]
    rfl
  have hcls : classifySymbols [((0 : Sym), (1 : ℝ))] [((0 : Sym), (1 : ℝ))]
      [((0 : Sym), (1 : ℝ))] ((3 : ℝ) / 200) = [(0, Action.HOLD)] := by
    rw [classifySymbols_eq]
    rw [show ((keysOf [((0 : Sym), (1 : ℝ))] ++ keysOf [((0 : Sym), (1 : ℝ))] ++
      keysOf [((0 : Sym), (1 : ℝ))]).dedup) = [(0 : Sym)] from rfl]
    rw [keyedMap_cons_some ([] : List Sym)
      (show _ = some Action.HOLD from classifyOne_hold 1 1 1 ((3 : ℝ) / 200)
        Iff.rfl (by norm_num))]
    rfl
  have h4 : lookup (classifySymbols
      (computeWeeklyTargets ⟨1/10, 3/2, 1, 1, 5, 5, 20, 3/200⟩
        (([⟨0, true, 1, none, true⟩] : List Insight).filter (fun i => i.active))
        (⟨[(0, 1)], [(0, 1)], [], none, false, [(0, 1)], []⟩ :
          PCMState).rolling_returns).1
      (⟨[(0, 1)], [(0, 1)], [], none, false, [(0, 1)], []⟩ :
        PCMState).previous_weekly_targets
      [((0 : Sym), (1 : ℝ))]
      (⟨1/10, 3/2, 1, 1, 5, 5, 20, 3/200⟩ : RiskCfg).dead_band) 0 =
      some Action.HOLD := by
    rw [hfil]
    rw [show (⟨[(0, 1)], [(0, 1)], [], none, false, [(0, 1)], []⟩ :
      PCMState).rolling_returns = ([] : List (Sym × List ℝ)) from rfl]
    rw [show (computeWeeklyTargets ⟨1/10, 3/2, 1, 1, 5, 5, 20, 3/200⟩
      [⟨0, true, 1, none, true⟩] ([] : List (Sym × List ℝ))).1 =
      [((0 : Sym), (1 : ℝ))] from by rw [hwk]]
    rw [show (⟨[(0, 1)], [(0, 1)], [], none, false, [(0, 1)], []⟩ :
      PCMState).previous_weekly_targets = [((0 : Sym), (1 : ℝ))] from rfl]
    rw [show (⟨1/10, 3/2, 1, 1, 5, 5, 20, 3/200⟩ : RiskCfg).dead_band =
      (3 : ℝ) / 200 from rfl]
    rw [hcls]
    rfl
  refine ⟨⟨List.cons_ne_nil _ _, by rw [hfil]; exact List.cons_ne_nil _ _, rfl, h4⟩, ?_⟩
  exact hold_not_emitted ⟨1/10, 3/2, 1, 1, 5, 5, 20, 3/200⟩
    ⟨[(0, 1)], [(0, 1)], [], none, false, [(0, 1)], []⟩
    [⟨0, true, 1, none, true⟩] [((0 : Sym), (1 : ℝ))] 0
    (List.cons_ne_nil _ _)
    (by rw [hfil]; exact List.cons_ne_nil _ _)
    rfl h4

/-! ## FLIP symbols: exit leg on the rebalance day, deferred entry (claim C5) -/

lemma mem_flipSymbols {cls : List (Sym × Action)} {s : Sym}
    (h : (s, Action.FLIP) ∈ cls) : s ∈ flipSymbols cls :=
  List.mem_map.mpr ⟨(s, Action.FLIP), List.mem_filter.mpr ⟨h, rfl⟩, rfl⟩

lemma emitOne_skip {cfg : RiskCfg} {strengths : List (Sym × ℝ)}
    {states : List (Sym × ScaleState)} {flips : List Sym}
    {cls : List (Sym × Action)} {q : Sym × ℝ} (h : q.1 ∈ flips) :
    emitOne cfg strengths states true flips cls q = none := by
  simp [emitOne, h]

lemma emitOne_day2 {cfg : RiskCfg} {strengths : List (Sym × ℝ)}
    {states : List (Sym × ScaleState)} (s : Sym) (v : ℝ) {d : ℕ}
    (hstate : lookup states s = some ⟨d, true⟩) :
    emitOne cfg strengths states false [] [] (s, v) =
      some (s, v * (scheduleFor cfg ((lookup strengths s).getD (1/2))).getD
        (min d ((scheduleFor cfg ((lookup strengths s).getD (1/2))).length - 1)) 0) := by
  simp only [emitOne]
  rw [if_neg (by simp), hstate]
  rfl

lemma createTargets_reb_fst (cfg : RiskCfg) (st : PCMState)
    (insights : List Insight) (actual : List (Sym × ℝ))
    (hins : insights ≠ [])
    (hact : insights.filter (fun i => i.active) ≠ [])
    (hreb : (st.is_rebalance_day ||
      counterRebalance cfg st.trading_days_since_rebalance) = true) :
    (createTargets cfg st insights actual).1 =
      exitFlipTargets (classifySymbols
          (computeWeeklyTargets cfg (insights.filter (fun i => i.active))
            st.rolling_returns).1
          st.previous_weekly_targets actual cfg.dead_band) ++
        emitTargets cfg
          (computeWeeklyTargets cfg (insights.filter (fun i => i.active))
            st.rolling_returns).1
          (computeWeeklyTargets cfg (insights.filter (fun i => i.active))
            st.rolling_returns).2
          (updateScaleStates st.symbol_scale_state (classifySymbols
            (computeWeeklyTargets cfg (insights.filter (fun i => i.active))
              st.rolling_returns).1
            st.previous_weekly_targets actual cfg.dead_band))
          true
          (flipSymbols (classifySymbols
            (computeWeeklyTargets cfg (insights.filter (fun i => i.active))
              st.rolling_returns).1
            st.previous_weekly_targets actual cfg.dead_band))
          (classifySymbols
            (computeWeeklyTargets cfg (insights.filter (fun i => i.active))
              st.rolling_returns).1
            st.previous_weekly_targets actual cfg.dead_band) := by
  simp only [createTargets]
  rw [if_neg hins, if_neg hact, if_pos hreb]

lemma createTargets_reb_snd (cfg : RiskCfg) (st : PCMState)
    (insights : List Insight) (actual : List (Sym × ℝ))
    (hins : insights ≠ [])
    (hact : insights.filter (fun i => i.active) ≠ [])
    (hreb : (st.is_rebalance_day ||
      counterRebalance cfg st.trading_days_since_rebalance) = true) :
    (createTargets cfg st insights actual).2 =
      ⟨(computeWeeklyTargets cfg (insights.filter (fun i => i.active))
          st.rolling_returns).1,
        (computeWeeklyTargets cfg (insights.filter (fun i => i.active))
          st.rolling_returns).2,
        updateScaleStates st.symbol_scale_state (classifySymbols
          (computeWeeklyTargets cfg (insights.filter (fun i => i.active))
            st.rolling_returns).1
          st.previous_weekly_targets actual cfg.dead_band),
        some 1, false,
        (computeWeeklyTargets cfg (insights.filter (fun i => i.active))
          st.rolling_returns).1,
        st.rolling_returns⟩ := by
  simp only [createTargets]
  rw [if_neg hins, if_neg hact, if_pos hreb]

/-- Claim C5: on a rebalance day a FLIP symbol gets exactly one emitted
instruction, its 0%-weight exit leg, and no entry-leg instruction; on the
following (non-rebalance) day the deferred entry emits the new target times
the schedule's second entry (index 1), not the first. -/
theorem flip_exit_then_scaled_entry (cfg : RiskCfg) (st : PCMState)
    (insights1 insights2 : List Insight) (actual1 actual2 : List (Sym × ℝ))
    (s : Sym) (w : ℝ)
    (hins1 : insights1 ≠ [])
    (hact1 : insights1.filter (fun i => i.active) ≠ [])
    (hreb : (st.is_rebalance_day ||
      counterRebalance cfg st.trading_days_since_rebalance) = true)
    (hins2 : insights2 ≠ [])
    (hact2 : insights2.filter (fun i => i.active) ≠ [])
    (hsd : 2 ≤ effSd cfg)
    (hint : 2 ≤ effInterval cfg)
    (hflip : lookup (classifySymbols
        (computeWeeklyTargets cfg (insights1.filter (fun i => i.active))
          st.rolling_returns).1
        st.previous_weekly_targets actual1 cfg.dead_band) s = some Action.FLIP)
    (hmem : (s, w) ∈ (computeWeeklyTargets cfg (insights1.filter (fun i => i.active))
        st.rolling_returns).1) :
    (createTargets cfg st insights1 actual1).1.filter
        (fun p => decide (p.1 = s)) = [(s, 0)] ∧
    (s, w * (scheduleFor cfg ((lookup (computeWeeklyTargets cfg
        (insights1.filter (fun i => i.active)) st.rolling_returns).2 s).getD
        (1/2))).getD 1 0) ∈
      (createTargets cfg (createTargets cfg st insights1 actual1).2
        insights2 actual2).1 := by
  have hndcls : (keysOf (classifySymbols
      (computeWeeklyTargets cfg (insights1.filter (fun i => i.active))
        st.rolling_returns).1
      st.previous_weekly_targets actual1 cfg.dead_band)).Nodup := by
    rw [classifySymbols_eq]
    exact keysOf_keyedMap_nodup _ _ (List.nodup_dedup _)
  have hmemcls : (s, Action.FLIP) ∈ classifySymbols
      (computeWeeklyTargets cfg (insights1.filter (fun i => i.active))
        st.rolling_returns).1
      st.previous_weekly_targets actual1 cfg.dead_band :=
    lookup_eq_some_mem _ s Action.FLIP hflip
  have hstates1 : lookup (updateScaleStates st.symbol_scale_state
      (classifySymbols
        (computeWeeklyTargets cfg (insights1.filter (fun i => i.active))
          st.rolling_returns).1
        st.previous_weekly_targets actual1 cfg.dead_band)) s = some ⟨0, true⟩ := by
    have h := lookup_updateScaleStates_mem _ st.symbol_scale_state s Action.FLIP
      hndcls hmemcls (by intro hc; cases hc)
    exact h
  constructor
  · rw [createTargets_reb_fst cfg st insights1 actual1 hins1 hact1 hreb]
    rw [List.filter_append]
    rw [filter_exitFlip_flip hndcls hmemcls]
    have hemitnil : (emitTargets cfg
        (computeWeeklyTargets cfg (insights1.filter (fun i => i.active))
          st.rolling_returns).1
        (computeWeeklyTargets cfg (insights1.filter (fun i => i.active))
          st.rolling_returns).2
        (updateScaleStates st.symbol_scale_state (classifySymbols
          (computeWeeklyTargets cfg (insights1.filter (fun i => i.active))
            st.rolling_returns).1
          st.previous_weekly_targets actual1 cfg.dead_band))
        true
        (flipSymbols (classifySymbols
          (computeWeeklyTargets cfg (insights1.filter (fun i => i.active))
            st.rolling_returns).1
          st.previous_weekly_targets actual1 cfg.dead_band))
        (classifySymbols
          (computeWeeklyTargets cfg (insights1.filter (fun i => i.active))
            st.rolling_returns).1
          st.previous_weekly_targets actual1 cfg.dead_band)).filter
        (fun p => decide (p.1 = s)) = [] := by
      rw [List.filter_eq_nil_iff]
      intro p hp
      rw [decide_eq_true_eq]
      intro hps
      obtain ⟨q, hq, hmatch⟩ := List.mem_filterMap.mp hp
      have hq1 : q.1 ∈ flipSymbols (classifySymbols
          (computeWeeklyTargets cfg (insights1.filter (fun i => i.active))
            st.rolling_returns).1
          st.previous_weekly_targets actual1 cfg.dead_band) := by
        rw [show q.1 = s from (emitOne_key hmatch).symm.trans hps]
        exact mem_flipSymbols hmemcls
      rw [emitOne_skip hq1] at hmatch
      cases hmatch
    rw [hemitnil]
    rfl
  · rw [createTargets_reb_snd cfg st insights1 actual1 hins1 hact1 hreb]
    have hcr : counterRebalance cfg (some 1) = false := by
      show decide (effInterval cfg ≤ 1) = false
      rw [decide_eq_false_iff_not]
      omega
    simp only [createTargets]
    rw [if_neg hins2, if_neg hact2]
    rw [Bool.false_or, hcr, if_neg Bool.false_ne_true]
    have hadv : lookup (advanceScaleStates cfg
        (updateScaleStates st.symbol_scale_state (classifySymbols
          (computeWeeklyTargets cfg (insights1.filter (fun i => i.active))
            st.rolling_returns).1
          st.previous_weekly_targets actual1 cfg.dead_band))) s = some ⟨1, true⟩ :=
      lookup_advance_scaling cfg _ s hstates1 hsd
    show (s, w * (scheduleFor cfg ((lookup (computeWeeklyTargets cfg
        (insights1.filter (fun i => i.active)) st.rolling_returns).2 s).getD
        (1/2))).getD 1 0) ∈
      List.filterMap (emitOne cfg
        (computeWeeklyTargets cfg (insights1.filter (fun i => i.active))
          st.rolling_returns).2
        (advanceScaleStates cfg
          (updateScaleStates st.symbol_scale_state (classifySymbols
            (computeWeeklyTargets cfg (insights1.filter (fun i => i.active))
              st.rolling_returns).1
            st.previous_weekly_targets actual1 cfg.dead_band)))
        false [] [])
        (computeWeeklyTargets cfg (insights1.filter (fun i => i.active))
          st.rolling_returns).1
    apply List.mem_filterMap.mpr
    refine ⟨(s, w), hmem, ?_⟩
    rw [emitOne_day2 s w hadv]
    rw [scheduleFor_length]
    rw [show min 1 (effSd cfg - 1) = 1 from by omega]

/-- Witness for C5: symbol 0 was previously targeted at +1, the new signal
flips it to −1 while it is held long, so it is classified FLIP; the rebalance
day emits exactly the 0%-weight exit for it, and the next day emits
`−1 × schedule[1]`. -/
theorem flip_exit_then_scaled_entry_witness :
    (([⟨0, false, 1, none, true⟩] : List Insight) ≠ [] ∧
      (([⟨0, false, 1, none, true⟩] : List Insight).filter (fun i => i.active)) ≠ [] ∧
      (((⟨[(0, 1)], [(0, 1)], [], none, false, [(0, 1)], []⟩ :
          PCMState).is_rebalance_day ||
        counterRebalance ⟨1/10, 3/2, 1, 1, 5, 5, 20, 3/200⟩
          (⟨[(0, 1)], [(0, 1)], [], none, false, [(0, 1)], []⟩ :
            PCMState).trading_days_since_rebalance) = true) ∧
      2 ≤ effSd ⟨1/10, 3/2, 1, 1, 5, 5, 20, 3/200⟩ ∧
      2 ≤ effInterval ⟨1/10, 3/2, 1, 1, 5, 5, 20, 3/200⟩ ∧
      lookup (classifySymbols
        (computeWeeklyTargets ⟨1/10, 3/2, 1, 1, 5, 5, 20, 3/200⟩
          (([⟨0, false, 1, none, true⟩] : List Insight).filter (fun i => i.active))
          (⟨[(0, 1)], [(0, 1)], [], none, false, [(0, 1)], []⟩ :
            PCMState).rolling_returns).1
        (⟨[(0, 1)], [(0, 1)], [], none, false, [(0, 1)], []⟩ :
          PCMState).previous_weekly_targets
        [((0 : Sym), (1 : ℝ))]
        (⟨1/10, 3/2, 1, 1, 5, 5, 20, 3/200⟩ : RiskCfg).dead_band) 0 =
        some Action.FLIP ∧
      ((0 : Sym), (-1 : ℝ)) ∈ (computeWeeklyTargets ⟨1/10, 3/2, 1, 1, 5, 5, 20, 3/200⟩
        (([⟨0, false, 1, none, true⟩] : List Insight).filter (fun i => i.active))
        (⟨[(0, 1)], [(0, 1)], [], none, false, [(0, 1)], []⟩ :
          PCMState).rolling_returns).1) ∧
    ((createTargets ⟨1/10, 3/2, 1, 1, 5, 5, 20, 3/200⟩
        ⟨[(0, 1)], [(0, 1)], [], none, false, [(0, 1)], []⟩
        [⟨0, false, 1, none, true⟩] [((0 : Sym), (1 : ℝ))]).1.filter
        (fun p => decide (p.1 = 0)) = [((0 : Sym), (0 : ℝ))] ∧
      ((0 : Sym), (-1 : ℝ) * (scheduleFor ⟨1/10, 3/2, 1, 1, 5, 5, 20, 3/200⟩
        ((lookup (computeWeeklyTargets ⟨1/10, 3/2, 1, 1, 5, 5, 20, 3/200⟩
          (([⟨0, false, 1, none, true⟩] : List Insight).filter (fun i => i.active))
          (⟨[(0, 1)], [(0, 1)], [], none, false, [(0, 1)], []⟩ :
            PCMState).rolling_returns).2 0).getD (1/2))).getD 1 0) ∈
        (createTargets ⟨1/10, 3/2, 1, 1, 5, 5, 20, 3/200⟩
          (createTargets ⟨1/10, 3/2, 1, 1, 5, 5, 20, 3/200⟩
            ⟨[(0, 1)], [(0, 1)], [], none, false, [(0, 1)], []⟩
            [⟨0, false, 1, none, true⟩] [((0 : Sym), (1 : ℝ))]).2
          [⟨0, false, 1, none, true⟩] [((0 : Sym), (1 : ℝ))]).1) := by
  have hfil : (([⟨0, false, 1, none, true⟩] : List Insight).filter
      (fun i => i.active)) = [⟨0, false, 1, none, true⟩] := rfl
  have hgrossF : grossOf [((0 : Sym), (-1 : ℝ) * 1)] = 1 := by
    norm_num [grossOf]
  have hnormF : normalizeRaw [((0 : Sym), (-1 : ℝ) * 1)] =
      [((0 : Sym), (-1 : ℝ))] := by
    simp only [normalizeRaw, List.map_cons, List.map_nil]
    rw [hgrossF]
    norm_num
  have hvolF : estimate_portfolio_vol [((0 : Sym), (-1 : ℝ))]
      ([] : List (Sym × List ℝ)) 20 = none :=
    estimate_portfolio_vol_none (List.mem_singleton.mpr rfl)
      (by norm_num [eps8]) (fun l h => Option.noConfusion h)
  have hpnF : apply_per_name_cap [((0 : Sym), (-1 : ℝ))] 1 =
      [((0 : Sym), (-1 : ℝ))] := by
    simp only [apply_per_name_cap, List.map_cons, List.map_nil]
    norm_num
  have hgrossNegOne : grossOf [((0 : Sym), (-1 : ℝ))] = 1 := by norm_num [grossOf]
  have hgcF : apply_gross_cap [((0 : Sym), (-1 : ℝ))] (3 / 2) =
      [((0 : Sym), (-1 : ℝ))] := by
    unfold apply_gross_cap
    rw [if_neg (by rw [hgrossNegOne]; norm_num)]
  have hnetF : netOf [((0 : Sym), (-1 : ℝ))] = -1 := by norm_num [netOf]
  have hncF : apply_net_cap [((0 : Sym), (-1 : ℝ))] 1 =
      [((0 : Sym), (-1 : ℝ))] := by
    unfold apply_net_cap
    rw [if_neg (by rw [hnetF]; norm_num)]
  have hwkF : computeWeeklyTargets ⟨1/10, 3/2, 1, 1, 5, 5, 20, 3/200⟩
      [⟨0, false, 1, none, true⟩] ([] : List (Sym × List ℝ)) =
      ([((0 : Sym), (-1 : ℝ))], [((0 : Sym), (1 : ℝ))]) := by
    simp only [computeWeeklyTargets]
    rw [show latestBySymbol [(⟨0, false, 1, none, true⟩ : Insight)] =
      [((0 : Sym), (⟨0, false, 1, none, true⟩ : Insight))] from rfl]
    rw [show rawWeights [((0 : Sym), (⟨0, false, 1, none, true⟩ : Insight))] =
      [((0 : Sym), (-1 : ℝ) * 1)] from rfl]
    rw [if_neg (by rw [hgrossF]; norm_num [eps8])]
    rw [hnormF]
    rw [hvolF]
    rw [show volScaleFactor (⟨1/10, 3/2, 1, 1, 5, 5, 20, 3/200⟩ : RiskCfg) none = 1
      from rfl, scaleWeights_one]
    rw [show applyCaps (⟨1/10, 3/2, 1, 1, 5, 5, 20, 3/200⟩ : RiskCfg)
        [((0 : Sym), (-1 : ℝ))] =
      apply_net_cap (apply_gross_cap (apply_per_name_cap [((0 : Sym), (-1 : ℝ))] 1)
        (3 / 2)) 1 from rfl]
    rw [hpnF, hgcF, hncF]
    rfl
  have hclsF : classifySymbols [((0 : Sym), (-1 : ℝ))] [((0 : Sym), (1 : ℝ))]
      [((0 : Sym), (1 : ℝ))] ((3 : ℝ) / 200) = [(0, Action.FLIP)] := by
    rw [classifySymbols_eq]
    rw [show ((keysOf [((0 : Sym), (-1 : ℝ))] ++ keysOf [((0 : Sym), (1 : ℝ))] ++
      keysOf [((0 : Sym), (1 : ℝ))]).dedup) = [(0 : Sym)] from rfl]
    rw [keyedMap_cons_some ([] : List Sym)
      (show _ = some Action.FLIP from classifyOne_flip_prior (-1) 1 1 ((3 : ℝ) / 200)
        (by norm_num))]
    rfl
  have h4F : lookup (classifySymbols
      (computeWeeklyTargets ⟨1/10, 3/2, 1, 1, 5, 5, 20, 3/200⟩
        (([⟨0, false, 1, none, true⟩] : List Insight).filter (fun i => i.active))
        (⟨[(0, 1)], [(0, 1)], [], none, false, [(0, 1)], []⟩ :
          PCMState).rolling_returns).1
      (⟨[(0, 1)], [(0, 1)], [], none, false, [(0, 1)], []⟩ :
        PCMState).previous_weekly_targets
      [((0 : Sym), (1 : ℝ))]
      (⟨1/10, 3/2, 1, 1, 5, 5, 20, 3/200⟩ : RiskCfg).dead_band) 0 =
      some Action.FLIP := by
    rw [hfil]
    rw [show (⟨[(0, 1)], [(0, 1)], [], none, false, [(0, 1)], []⟩ :
      PCMState).rolling_returns = ([] : List (Sym × List ℝ)) from rfl]
    rw [show (computeWeeklyTargets ⟨1/10, 3/2, 1, 1, 5, 5, 20, 3/200⟩
      [⟨0, false, 1, none, true⟩] ([] : List (Sym × List ℝ))).1 =
      [((0 : Sym), (-1 : ℝ))] from by rw [hwkF]]
    rw [show (⟨[(0, 1)], [(0, 1)], [], none, false, [(0, 1)], []⟩ :
      PCMState).previous_weekly_targets = [((0 : Sym), (1 : ℝ))] from rfl]
    rw [show (⟨1/10, 3/2, 1, 1, 5, 5, 20, 3/200⟩ : RiskCfg).dead_band =
      (3 : ℝ) / 200 from rfl]
    rw [hclsF]
    rfl
  have hmemF : ((0 : Sym), (-1 : ℝ)) ∈
      (computeWeeklyTargets ⟨1/10, 3/2, 1, 1, 5, 5, 20, 3/200⟩
        (([⟨0, false, 1, none, true⟩] : List Insight).filter (fun i => i.active))
        (⟨[(0, 1)], [(0, 1)], [], none, false, [(0, 1)], []⟩ :
          PCMState).rolling_returns).1 := by
    rw [hfil]
    rw [show (⟨[(0, 1)], [(0, 1)], [], none, false, [(0, 1)], []⟩ :
      PCMState).rolling_returns = ([] : List (Sym × List ℝ)) from rfl]
    rw [show (computeWeeklyTargets ⟨1/10, 3/2, 1, 1, 5, 5, 20, 3/200⟩
      [⟨0, false, 1, none, true⟩] ([] : List (Sym × List ℝ))).1 =
      [((0 : Sym), (-1 : ℝ))] from by rw [hwkF]]
    exact List.mem_singleton.mpr rfl
  exact ⟨⟨List.cons_ne_nil _ _, by rw [hfil]; exact List.cons_ne_nil _ _, rfl,
      by decide, by decide, h4F, hmemF⟩,
    flip_exit_then_scaled_entry ⟨1/10, 3/2, 1, 1, 5, 5, 20, 3/200⟩
      ⟨[(0, 1)], [(0, 1)], [], none, false, [(0, 1)], []⟩
      [⟨0, false, 1, none, true⟩] [⟨0, false, 1, none, true⟩]
      [((0 : Sym), (1 : ℝ))] [((0 : Sym), (1 : ℝ))] 0 (-1)
      (List.cons_ne_nil _ _) (by rw [hfil]; exact List.cons_ne_nil _ _) rfl
      (List.cons_ne_nil _ _) (by rw [hfil]; exact List.cons_ne_nil _ _)
      (by decide) (by decide) h4F hmemF⟩

end

end WolfpackTrend
